import Mathlib

/-!
Shallow embedding of the gitpulse repository-mining engine
(src/gitpulse/git_analyzer.py) and proofs about it.

External effects (git subprocess invocations, the filesystem) are modelled
by an explicit environment record whose fields give the outcome of each
distinct git invocation; pure parsing and aggregation code is translated
function by function from the Python source.  Python exceptions are
modelled with Except, Python int with ℤ/ℕ, and Python float fractions with
ℚ (the survival fractions are exact decimal computations in the source:
a division, a min, and a rounding to 4 decimal places).
-/

namespace Gitpulse

/-- Python exception kinds that the analyzer code can raise or catch:
RuntimeError (raised by the command runner on non-zero exit),
subprocess.TimeoutExpired, ValueError (raised by int() and by tuple
unpacking / datetime parsing), TypeError (comparison of naive and
aware datetimes) and KeyError (dict lookup with an absent key). -/
inductive PyErr where
  | runtimeError
  | timeoutExpired
  | valueError
  | typeError
  | keyError
deriving DecidableEq

/-- Outcome of one external git invocation: captured stdout on exit 0,
or a failure kind (non-zero exit versus timeout). -/
inductive GitOut where
  | ok (stdout : String)
  | exitFail
  | timedOut
deriving DecidableEq

/-- Model of the command runner wrapper: a non-zero exit becomes a
RuntimeError, a timeout propagates as TimeoutExpired (the source's
subprocess.run with timeout=60 wrapped by the check in _run_git). -/
def runGit : GitOut → Except PyErr String
  | .ok s => .ok s
  | .exitFail => .error .runtimeError
  | .timedOut => .error .timeoutExpired

/-- Python whitespace characters recognised by str.strip and str.split. -/
def isPySpace (c : Char) : Bool :=
  c == ' ' || c == '\t' || c == '\n' || c == '\r' || c == '\x0b' || c == '\x0c'

/-- Strip leading and trailing whitespace from a character list. -/
def stripChars (cs : List Char) : List Char :=
  ((cs.dropWhile isPySpace).reverse.dropWhile isPySpace).reverse

/-- Split a character list at every character satisfying p, keeping empty
pieces, exactly like str.split with an explicit one-character separator. -/
def splitOnPred (p : Char → Bool) : List Char → List (List Char)
  | [] => [[]]
  | c :: cs =>
    if p c then [] :: splitOnPred p cs
    else
      match splitOnPred p cs with
      | [] => [[c]]
      | h :: t => (c :: h) :: t

/-- Split a character list on one separator character. -/
def splitOnChar (sep : Char) (cs : List Char) : List (List Char) :=
  splitOnPred (fun c => c == sep) cs

/-- Model of str.splitlines on the captured stdout.  The source only ever
inspects lines after stripping or skipping blanks, for which splitting on
the newline character is extensionally adequate. -/
def splitLines (s : String) : List String :=
  (splitOnChar '\n' s.data).map (fun cs => String.mk cs)

/-- Model of line.split("\t"). -/
def splitTabs (s : String) : List String :=
  (splitOnChar '\t' s.data).map (fun cs => String.mk cs)

/-- Model of str.strip (leading and trailing whitespace removed). -/
def pyStrip (s : String) : String := String.mk (stripChars s.data)

/-- Value of a nonempty all-digit character list, none otherwise. -/
def digitsVal (cs : List Char) : Option ℕ :=
  match cs with
  | [] => none
  | _ =>
    cs.foldl
      (fun acc c =>
        acc.bind (fun n => if c.isDigit then some (n * 10 + (c.toNat - 48)) else none))
      (some 0)

/-- Model of Python int(str): optional sign followed by digits, with
surrounding whitespace ignored; none models the ValueError raise. -/
def pyInt (s : String) : Option ℤ :=
  match stripChars s.data with
  | [] => none
  | c :: rest =>
    if c = '-' then (digitsVal rest).map (fun n => -(n : ℤ))
    else if c = '+' then (digitsVal rest).map (fun n => (n : ℤ))
    else (digitsVal (c :: rest)).map (fun n => (n : ℤ))

/-- Model of str.split() with no separator: split on whitespace runs,
discarding empty pieces. -/
def wsSplit (s : String) : List String :=
  ((splitOnPred isPySpace s.data).map (fun cs => String.mk cs)).filter (fun t => t ≠ "")

/-- Model of line.split(" ", 1) when it succeeds in producing two parts:
the characters before the first space and everything after it.  none
models the ValueError of unpacking a single part into two names. -/
def splitFirstSpace : List Char → Option (List Char × List Char)
  | [] => none
  | c :: cs =>
    if c = ' ' then some ([], cs)
    else (splitFirstSpace cs).map (fun pr => (c :: pr.1, pr.2))

/-! ### Hotspot analyzer (get_hotspots) -/

/-- Output record of get_hotspots: the dict with keys path, change_count
and directory built at the end of the function. -/
structure HotspotEntry where
  path : String
  change_count : ℕ
  directory : String
deriving DecidableEq

/-- Model of the top-level directory expression
path.split("/")[0] if "/" in path else "". -/
def topDir (p : String) : String :=
  match splitOnChar '/' p.data with
  | [] => ""
  | [_] => ""
  | d :: _ => String.mk d

/-- One step of the accumulation counts[path] = counts.get(path, 0) + 1 on
an insertion-ordered association list, the model of a Python dict. -/
def bumpCount : List (String × ℕ) → String → List (String × ℕ)
  | [], p => [(p, 1)]
  | (q, c) :: rest, p =>
    if q = p then (q, c + 1) :: rest else (q, c) :: bumpCount rest p

/-- The counts dict of get_hotspots: iterate the lines of the log output,
strip each, skip empties, and count occurrences per path.  The association
list keeps keys in first-insertion order exactly as a Python dict does. -/
def buildCounts (out : String) : List (String × ℕ) :=
  (splitLines out).foldl
    (fun acc line =>
      let p := pyStrip line
      if p = "" then acc else bumpCount acc p)
    []

/-- Comparator used to model sorted(..., key=lambda x: x[1], reverse=True):
a stable sort that places higher counts first.  CPython's sort is stable
and reverse=True preserves the original order of equal keys, which is
exactly insertion sort with this relation. -/
def countGe (a b : String × ℕ) : Prop := b.2 ≤ a.2

instance : DecidableRel countGe := fun a b => inferInstanceAs (Decidable (b.2 ≤ a.2))

instance : IsTotal (String × ℕ) countGe := ⟨fun a b => le_total b.2 a.2⟩

instance : IsTrans (String × ℕ) countGe := ⟨fun _ _ _ h1 h2 => le_trans h2 h1⟩

/-- Pure core of get_hotspots: from the stdout of
git log --format= --name-only to the sorted hotspot entries. -/
def hotspotsOfLog (out : String) : List HotspotEntry :=
  (List.insertionSort countGe (buildCounts out)).map
    (fun pc => { path := pc.1, change_count := pc.2, directory := topDir pc.1 })

/-- The stripped nonempty lines of the log output, in walk order: the
paths the hotspot accumulation visits. -/
def walkedPaths (out : String) : List String :=
  ((splitLines out).map pyStrip).filter (fun p => p ≠ "")

/-- First-seen order of a walked path list: each path listed once, at the
position of its first occurrence. -/
def firstSeen (walked : List String) : List String :=
  walked.foldl (fun acc p => if p ∈ acc then acc else acc ++ [p]) []

/-! ### Snapshot sizer (get_file_tree) and churn analyzer (get_churn) -/

/-- Output record of get_file_tree: path, lines of code at HEAD, and the
churn placeholder that the orchestrator fills in later. -/
structure FileTreeEntry where
  path : String
  loc : ℤ
  churn : ℤ
deriving DecidableEq

/-- Output record of get_churn: per-path additions and deletions summed
over the full history. -/
structure ChurnEntry where
  path : String
  additions : ℤ
  deletions : ℤ
deriving DecidableEq

/-- Model of the numstat field conversion int(s) if s != "-" else 0:
the "-" placeholder of binary files becomes 0, any other non-integer
string raises ValueError. -/
def numstatField (s : String) : Except PyErr ℤ :=
  if s = "-" then .ok 0
  else
    match pyInt s with
    | some n => .ok n
    | none => .error .valueError

/-- Line loop of get_file_tree: strip, skip blanks, split on tabs, and for
lines with at least three fields append an entry with loc from field 0 and
path from field 2; shorter lines are skipped.  A non-integer numeric field
raises and aborts the whole parse, exactly as int() does in the source. -/
def fileTreeLines : List String → List FileTreeEntry → Except PyErr (List FileTreeEntry)
  | [], acc => .ok acc
  | line :: rest, acc =>
    let l := pyStrip line
    if l = "" then fileTreeLines rest acc
    else
      match splitTabs l with
      | a :: _ :: p :: _ => do
        let loc ← numstatField a
        fileTreeLines rest (acc ++ [{ path := p, loc := loc, churn := 0 }])
      | _ => fileTreeLines rest acc

/-- Pure core of get_file_tree: parse the stdout of
git diff --numstat EMPTY_TREE HEAD. -/
def fileTreeOfDiff (out : String) : Except PyErr (List FileTreeEntry) :=
  fileTreeLines (splitLines out) []

/-- One step of the churn accumulation dict: add the additions and
deletions of one diff-stat line to the entry of its path, keeping
first-insertion key order as a Python dict does. -/
def bumpChurn : List ChurnEntry → String → ℤ → ℤ → List ChurnEntry
  | [], p, a, d => [{ path := p, additions := a, deletions := d }]
  | e :: rest, p, a, d =>
    if e.path = p then
      { path := e.path, additions := e.additions + a, deletions := e.deletions + d } :: rest
    else e :: bumpChurn rest p a d

/-- Line loop of get_churn: strip, skip blanks, split on tabs, and for
lines with at least three fields accumulate fields 0 and 1 under the path
in field 2; shorter lines are skipped. -/
def churnLines : List String → List ChurnEntry → Except PyErr (List ChurnEntry)
  | [], acc => .ok acc
  | line :: rest, acc =>
    let l := pyStrip line
    if l = "" then churnLines rest acc
    else
      match splitTabs l with
      | a :: d :: p :: _ => do
        let adds ← numstatField a
        let dels ← numstatField d
        churnLines rest (bumpChurn acc p adds dels)
      | _ => churnLines rest acc

/-- Comparator modelling sorted(..., key=additions+deletions, reverse=True)
on churn entries, stable with higher totals first. -/
def churnTotGe (a b : ChurnEntry) : Prop :=
  b.additions + b.deletions ≤ a.additions + a.deletions

instance : DecidableRel churnTotGe :=
  fun a b => inferInstanceAs (Decidable (b.additions + b.deletions ≤ a.additions + a.deletions))

instance : IsTotal ChurnEntry churnTotGe :=
  ⟨fun a b => le_total (b.additions + b.deletions) (a.additions + a.deletions)⟩

instance : IsTrans ChurnEntry churnTotGe := ⟨fun _ _ _ h1 h2 => le_trans h2 h1⟩

/-- Pure core of get_churn: parse the stdout of
git log --numstat --format= and sort descending by total churn. -/
def churnOfLog (out : String) : Except PyErr (List ChurnEntry) :=
  (churnLines (splitLines out) []).map (fun l => List.insertionSort churnTotGe l)

/-! ### Orchestrator merge step (analyze_repo lines 299-302) -/

/-- Model of churn_map construction and lookup: the dict comprehension
maps each path to additions+deletions, a later duplicate overwriting an
earlier one, and .get(path, 0) returns 0 for absent paths.  Looking up the
last matching entry reproduces the overwrite semantics. -/
def churnMapGet (churn : List ChurnEntry) (p : String) : ℤ :=
  match churn.reverse.find? (fun e => e.path == p) with
  | some e => e.additions + e.deletions
  | none => 0

/-- The in-place loop for entry in file_tree: entry["churn"] =
churn_map.get(entry["path"], 0), written functionally. -/
def mergeChurn (ft : List FileTreeEntry) (churn : List ChurnEntry) : List FileTreeEntry :=
  ft.map (fun e => { e with churn := churnMapGet churn e.path })

/-! ### Decimal printing and lexicographic string order -/

/-- Decimal digit character of n less than 10. -/
def natDigitChar (n : ℕ) : Char := Char.ofNat (48 + n)

/-- Decimal digits of n, most significant first, computed with an explicit
fuel argument so that the recursion is structural. -/
def natToCharsAux : ℕ → ℕ → List Char
  | 0, _ => []
  | fuel + 1, n =>
    if n < 10 then [natDigitChar n]
    else natToCharsAux fuel (n / 10) ++ [natDigitChar (n % 10)]

/-- Decimal representation of a natural number, as Python str/format
print it (no padding, no sign). -/
def natToChars (n : ℕ) : List Char := natToCharsAux (n + 1) n

/-- Decimal representation of an integer with a leading minus sign when
negative. -/
def intToChars (n : ℤ) : List Char :=
  if n < 0 then '-' :: natToChars (-n).toNat else natToChars n.toNat

/-- Model of the format spec 02d for the small nonnegative month and day
fields: pad to two digits with a leading zero. -/
def twoDigit (n : ℤ) : List Char :=
  if 0 ≤ n ∧ n < 10 then '0' :: natToChars n.toNat else intToChars n

/-- Lexicographic order on character lists by code point, the order Python
uses to compare strings. -/
def charListLe : List Char → List Char → Bool
  | [], _ => true
  | _ :: _, [] => false
  | a :: as, b :: bs => if a = b then charListLe as bs else decide (a < b)

/-- Python string comparison, used by sorted() on the cohort keys. -/
def strLe (a b : String) : Prop := charListLe a.data b.data = true

instance : DecidableRel strLe :=
  fun a b => inferInstanceAs (Decidable (charListLe a.data b.data = true))

theorem charListLe_total : ∀ as bs, charListLe as bs = true ∨ charListLe bs as = true
  | [], _ => Or.inl rfl
  | _ :: _, [] => Or.inr rfl
  | a :: as, b :: bs => by
    by_cases hab : a = b
    · subst hab
      simpa [charListLe] using charListLe_total as bs
    · have hba : ¬ b = a := fun e => hab e.symm
      rcases lt_trichotomy a b with h | h | h
      · left; simp [charListLe, hab, h]
      · exact absurd h hab
      · right; simp [charListLe, hba, h]

theorem charListLe_trans :
    ∀ as bs cs, charListLe as bs = true → charListLe bs cs = true → charListLe as cs = true
  | [], _, _, _, _ => rfl
  | _ :: _, [], _, h1, _ => by simp [charListLe] at h1
  | _ :: _, _ :: _, [], _, h2 => by simp [charListLe] at h2
  | a :: as, b :: bs, c :: cs, h1, h2 => by
    by_cases hab : a = b <;> by_cases hbc : b = c
    · subst hab; subst hbc
      simp only [charListLe, if_pos rfl] at h1 h2 ⊢
      exact charListLe_trans as bs cs h1 h2
    · subst hab
      have hlt : a < c := by
        simpa [charListLe, hbc] using h2
      simp [charListLe, hbc, hlt]
    · subst hbc
      have hlt : a < b := by
        simpa [charListLe, hab] using h1
      simp [charListLe, hab, hlt]
    · have h1lt : a < b := by simpa [charListLe, hab] using h1
      have h2lt : b < c := by simpa [charListLe, hbc] using h2
      have hlt : a < c := lt_trans h1lt h2lt
      have hac : ¬ a = c := fun e => absurd (e ▸ h1lt) (asymm h2lt)
      simp [charListLe, hac, hlt]

instance : IsTotal String strLe := ⟨fun a b => charListLe_total a.data b.data⟩

instance : IsTrans String strLe := ⟨fun a b c => charListLe_trans a.data b.data c.data⟩

/-! ### Datetime model (datetime.fromisoformat, quarter arithmetic) -/

/-- Model of a Python datetime value as produced by fromisoformat: the six
calendar fields and an optional fixed utc offset in minutes (none models a
naive datetime). -/
structure PyDateTime where
  year : ℕ
  month : ℕ
  day : ℕ
  hour : ℕ
  minute : ℕ
  second : ℕ
  tzOffMinutes : Option ℤ
deriving DecidableEq

/-- Two-digit field value. -/
def parse2 (a b : Char) : Option ℕ :=
  if a.isDigit && b.isDigit then some ((a.toNat - 48) * 10 + (b.toNat - 48)) else none

/-- Four-digit field value. -/
def parse4 (a b c d : Char) : Option ℕ :=
  if a.isDigit && b.isDigit && c.isDigit && d.isDigit then
    some ((a.toNat - 48) * 1000 + (b.toNat - 48) * 100 + (c.toNat - 48) * 10 + (d.toNat - 48))
  else none

/-- Gregorian leap year test. -/
def isLeapYear (y : ℕ) : Bool := (y % 4 == 0 && y % 100 != 0) || y % 400 == 0

/-- Length of a month, used by the datetime constructor validation. -/
def daysInMonth (y m : ℕ) : ℕ :=
  if m = 2 then (if isLeapYear y then 29 else 28)
  else if m = 4 || m = 6 || m = 9 || m = 11 then 30
  else 31

/-- Offset suffix of an ISO timestamp: empty (naive) or sign HH:MM. -/
def parseTz : List Char → Option (Option ℤ)
  | [] => some none
  | [sign, o1, o2, ':', o3, o4] => do
    let oh ← parse2 o1 o2
    let om ← parse2 o3 o4
    if oh ≤ 23 ∧ om ≤ 59 then
      if sign = '+' then some (some ((oh : ℤ) * 60 + (om : ℤ)))
      else if sign = '-' then some (some (-((oh : ℤ) * 60 + (om : ℤ))))
      else none
    else none
  | _ => none

/-- Model of datetime.fromisoformat restricted to the timestamp shape the
git placeholder %aI emits: YYYY-MM-DDTHH:MM:SS with an optional +HH:MM or
-HH:MM offset, with the constructor range checks; none models the
ValueError raise on any other shape. -/
def parseIsoChars : List Char → Option PyDateTime
  | y1 :: y2 :: y3 :: y4 :: '-' :: m1 :: m2 :: '-' :: d1 :: d2 :: 'T' ::
      h1 :: h2 :: ':' :: n1 :: n2 :: ':' :: s1 :: s2 :: rest => do
    let y ← parse4 y1 y2 y3 y4
    let mo ← parse2 m1 m2
    let dd ← parse2 d1 d2
    let hh ← parse2 h1 h2
    let mi ← parse2 n1 n2
    let ss ← parse2 s1 s2
    let tz ← parseTz rest
    if 1 ≤ y ∧ 1 ≤ mo ∧ mo ≤ 12 ∧ 1 ≤ dd ∧ dd ≤ daysInMonth y mo ∧
        hh ≤ 23 ∧ mi ≤ 59 ∧ ss ≤ 59 then
      some { year := y, month := mo, day := dd, hour := hh, minute := mi,
             second := ss, tzOffMinutes := tz }
    else none
  | _ => none

/-- Days from 1970-01-01 of a civil date (proleptic Gregorian), the
standard era-based computation; Lean integer division here is euclidean,
which on these operands agrees with the mathematical floor. -/
def daysFromCivil (y m d : ℤ) : ℤ :=
  let y2 := if m ≤ 2 then y - 1 else y
  let era := y2 / 400
  let yoe := y2 - era * 400
  let mp := (m + 9) % 12
  let doy := (153 * mp + 2) / 5 + d - 1
  let doe := yoe * 365 + yoe / 4 - yoe / 100 + doy
  era * 146097 + doe - 719468

/-- Wall-clock seconds of a datetime ignoring its offset; comparing two
naive datetimes compares these values. -/
def epochWall (dt : PyDateTime) : ℤ :=
  86400 * daysFromCivil (dt.year : ℤ) (dt.month : ℤ) (dt.day : ℤ) +
    3600 * (dt.hour : ℤ) + 60 * (dt.minute : ℤ) + (dt.second : ℤ)

/-- Absolute instant of an aware datetime in seconds since the epoch; this
is what comparison and astimezone(timezone.utc) preserve. -/
def epochAbs (dt : PyDateTime) : ℤ :=
  epochWall dt - 60 * dt.tzOffMinutes.getD 0

/-- One comparison step of Python max() over datetimes: keep the larger,
preferring the earlier on ties; comparing a naive with an aware datetime
raises TypeError. -/
def pyDTmaxStep (a b : PyDateTime) : Except PyErr PyDateTime :=
  match a.tzOffMinutes, b.tzOffMinutes with
  | some _, some _ => .ok (if epochAbs a < epochAbs b then b else a)
  | none, none => .ok (if epochWall a < epochWall b then b else a)
  | _, _ => .error .typeError

/-- Model of max(dt for _, dt in commits); max() of an empty iterable
raises ValueError (unreachable here because the caller checks first). -/
def pyMaxDT : List PyDateTime → Except PyErr PyDateTime
  | [] => .error .valueError
  | d :: ds => ds.foldlM pyDTmaxStep d

/-! ### Survival analyzer (get_survival_curves) -/

/-- Calendar quarter 1-4 of a month, the expression (month - 1) // 3 + 1. -/
def quarterOf (m : ℕ) : ℕ := (m - 1) / 3 + 1

/-- Cohort key of a commit datetime, the f-string year-Qquarter. -/
def cohortKeyOf (dt : PyDateTime) : String :=
  String.mk (natToChars dt.year ++ '-' :: 'Q' :: natToChars (quarterOf dt.month))

/-- One step of the defaultdict(set) accumulation
cohort_commits[key].add(sha): keys keep first-insertion order, each key
holds its member SHAs with set semantics. -/
def addCohort : List (String × List String) → String → String → List (String × List String)
  | [], k, sha => [(k, [sha])]
  | (k2, s) :: rest, k, sha =>
    if k2 = k then (k2, if sha ∈ s then s else s ++ [sha]) :: rest
    else (k2, s) :: addCohort rest k sha

/-- The cohort_commits dict built from the parsed commit list. -/
def buildCohorts (commits : List (String × PyDateTime)) : List (String × List String) :=
  commits.foldl (fun m sd => addCohort m (cohortKeyOf sd.2) sd.1) []

/-- Model of the Python list slice l[-8:]. -/
def takeLast {α : Type} (n : ℕ) (l : List α) : List α := l.drop (l.length - n)

/-- Split a character list on the two-character separator of the cohort
key format, as key.split("-Q") does. -/
def splitOnDashQ : List Char → List (List Char)
  | [] => [[]]
  | '-' :: 'Q' :: cs => [] :: splitOnDashQ cs
  | c :: cs =>
    match splitOnDashQ cs with
    | [] => [[c]]
    | h :: t => (c :: h) :: t

/-- Epoch seconds of a UTC midnight datetime(y, m, d, tzinfo=utc). -/
def epochAtMidnightUTC (y m d : ℤ) : ℤ := 86400 * daysFromCivil y m d

/-- The f-string date year-month-day with 02d padding on month and day. -/
def dateStrF (y m d : ℤ) : String :=
  String.mk (intToChars y ++ '-' :: twoDigit m ++ '-' :: twoDigit d)

/-- Model of _quarter_dates: split the key on -Q, convert both halves with
int(), look the quarter up in the three literal dicts (KeyError when the
quarter is not 1-4), format the two exclusive bound date strings, and
construct the cohort end datetime at UTC midnight (whose constructor
validates the year range). -/
def quarterDates (key : String) : Except PyErr (String × String × ℤ) :=
  match (splitOnDashQ key.data).map (fun cs => String.mk cs) with
  | [ys, qs] =>
    match pyInt ys, pyInt qs with
    | some y, some q =>
      if q = 1 ∨ q = 2 ∨ q = 3 ∨ q = 4 then
        let startT : ℤ × ℤ × ℤ :=
          if q = 1 then (y - 1, 12, 31) else if q = 2 then (y, 3, 31)
          else if q = 3 then (y, 6, 30) else (y, 9, 30)
        let endT : ℤ × ℤ × ℤ :=
          if q = 1 then (y, 4, 1) else if q = 2 then (y, 7, 1)
          else if q = 3 then (y, 10, 1) else (y + 1, 1, 1)
        let endD : ℤ × ℤ × ℤ :=
          if q = 1 then (y, 3, 31) else if q = 2 then (y, 6, 30)
          else if q = 3 then (y, 9, 30) else (y, 12, 31)
        if 1 ≤ y ∧ y ≤ 9999 then
          .ok (dateStrF startT.1 startT.2.1 startT.2.2,
               dateStrF endT.1 endT.2.1 endT.2.2,
               epochAtMidnightUTC endD.1 endD.2.1 endD.2.2)
        else .error .valueError
      else .error .keyError
    | _, _ => .error .valueError
  | _ => .error .valueError

/-- Round half to even on the exact rational: the floor (numerator
euclidean-divided by the positive denominator) plus one when the
fractional part exceeds one half, ties going to the even neighbour. -/
def roundHalfEven (x : ℚ) : ℤ :=
  let n := x.num / (x.den : ℤ)
  let r := x.num % (x.den : ℤ)
  if 2 * r < (x.den : ℤ) then n
  else if (x.den : ℤ) < 2 * r then n + 1
  else if n % 2 = 0 then n else n + 1

/-- Model of Python round(q, 4): the nearest multiple of 1/10000 with ties
to even, computed on the exact rational q * 10000. -/
def round4 (q : ℚ) : ℚ :=
  Rat.divInt (roundHalfEven (Rat.divInt (q.num * 10000) (q.den : ℤ))) 10000

/-- One sample of a survival curve. -/
structure SurvivalSample where
  weeks_elapsed : ℕ
  surviving_lines : ℚ
deriving DecidableEq

/-- One survival curve: the cohort key and its ordered samples. -/
structure SurvivalCurve where
  cohort : String
  data : List SurvivalSample
deriving DecidableEq

/-- The always-present first sample (weeks_elapsed 0, surviving 1.0). -/
def initialSample : SurvivalSample := { weeks_elapsed := 0, surviving_lines := 1 }

/-- Environment of one analysis run: the outcome of every distinct git
invocation the analyzers can make against the bare clone.  The rev-list
query is keyed by the epoch second of its before bound (the ISO string it
receives determines and is determined by that instant); blame is keyed by
revision and file path and yields either none (a timeout, caught and
skipped) or a return code and captured stdout. -/
structure GitEnv where
  logNameOnly : GitOut
  hashObject : GitOut
  diffNumstat : String → GitOut
  logNumstat : GitOut
  logShaDate : GitOut
  cohortNumstat : String → String → GitOut
  revList : ℤ → GitOut
  blame : String → String → Option (ℤ × String)

/-- Line loop over git log --format=%H %aI output: strip, skip blanks,
split at the first space (ValueError when there is none), parse the
timestamp (ValueError when malformed). -/
def commitLines : List String → List (String × PyDateTime) →
    Except PyErr (List (String × PyDateTime))
  | [], acc => .ok acc
  | line :: rest, acc =>
    let l := pyStrip line
    if l = "" then commitLines rest acc
    else
      match splitFirstSpace l.data with
      | none => .error .valueError
      | some (sha, dstr) =>
        match parseIsoChars dstr with
        | none => .error .valueError
        | some dt => commitLines rest (acc ++ [(String.mk sha, dt)])

/-- Parse the full history walk output of the survival analyzer. -/
def parseCommits (out : String) : Except PyErr (List (String × PyDateTime)) :=
  commitLines (splitLines out) []

/-- Line loop over the quarter-bounded numstat output: accumulate total
added lines from field 0 (skipping the "-" placeholder, which also skips
the path) and collect the distinct touched paths from field 2. -/
def statLines : List String → ℤ × List String → Except PyErr (ℤ × List String)
  | [], acc => .ok acc
  | line :: rest, acc =>
    let l := pyStrip line
    if l = "" then statLines rest acc
    else
      match splitTabs l with
      | a :: _ :: p :: _ =>
        if a = "-" then statLines rest acc
        else
          match pyInt a with
          | none => .error .valueError
          | some v => statLines rest (acc.1 + v, if p ∈ acc.2 then acc.2 else acc.2 ++ [p])
      | _ => statLines rest acc

/-- Total added lines and touched files of one quarter-bounded query. -/
def cohortStats (out : String) : Except PyErr (ℤ × List String) :=
  statLines (splitLines out) (0, [])

/-- Contribution of one git blame --porcelain output line: content lines
(those starting with a tab) contribute nothing; header lines whose first
whitespace token is 40 characters long and a member of the cohort SHA set
contribute one surviving line. -/
def blameLineCount (line : String) (shas : List String) : ℕ :=
  match line.data with
  | '\t' :: _ => 0
  | _ =>
    match wsSplit line with
    | sha :: _ :: _ :: _ => if sha.length = 40 ∧ sha ∈ shas then 1 else 0
    | _ => 0

/-- Model of _count_surviving_lines: per file, a blame timeout (none) or a
non-zero exit is skipped silently, otherwise the matching header lines of
the output are counted. -/
def countSurviving (env : GitEnv) (rev : String) (files shas : List String) : ℕ :=
  files.foldl
    (fun acc f =>
      match env.blame rev f with
      | none => acc
      | some (rc, out) =>
        if rc = 0 then acc + ((splitLines out).map (fun l => blameLineCount l shas)).sum
        else acc)
    0

/-- The offsets range(4, 53, 4) of the sampling loop. -/
def offsetList : List ℕ := [4, 8, 12, 16, 20, 24, 28, 32, 36, 40, 44, 48, 52]

/-- Sampling loop of one cohort over the remaining week offsets:
stop entirely once the projected instant passes the newest commit; a
rev-list non-zero exit or an empty rev-list output skips one offset; a
rev-list timeout is not caught and aborts; otherwise blame-count the
surviving lines and append the rounded clamped fraction. -/
def runOffsets (env : GitEnv) (shas files : List String) (total : ℤ)
    (cohortEnd headEpoch : ℤ) : List ℕ → Except PyErr (List SurvivalSample)
  | [] => .ok []
  | w :: ws =>
    let sampleT := cohortEnd + 604800 * (w : ℤ)
    if headEpoch < sampleT then .ok []
    else
      match env.revList sampleT with
      | .exitFail => runOffsets env shas files total cohortEnd headEpoch ws
      | .timedOut => .error .timeoutExpired
      | .ok out =>
        let rev := pyStrip out
        if rev = "" then runOffsets env shas files total cohortEnd headEpoch ws
        else
          match runOffsets env shas files total cohortEnd headEpoch ws with
          | .error e => .error e
          | .ok rest =>
            .ok ({ weeks_elapsed := w,
                   surviving_lines :=
                     round4 (min (Rat.divInt (countSurviving env rev files shas : ℤ) total) 1) }
              :: rest)

/-- Body of the per-cohort loop of get_survival_curves: quarter bounds,
the quarter-bounded numstat (a non-zero exit skips the whole cohort, the
except RuntimeError: continue), the zero-total short curve, else the
sampling loop.  ok none models the continue. -/
def cohortCurve (env : GitEnv) (cohorts : List (String × List String)) (headEpoch : ℤ)
    (key : String) : Except PyErr (Option SurvivalCurve) :=
  let shas := ((cohorts.find? (fun kc => kc.1 == key)).map Prod.snd).getD []
  match quarterDates key with
  | .error e => .error e
  | .ok (afterS, beforeS, cohortEnd) =>
    match env.cohortNumstat afterS beforeS with
    | .exitFail => .ok none
    | .timedOut => .error .timeoutExpired
    | .ok out =>
      match cohortStats out with
      | .error e => .error e
      | .ok (total, files) =>
        if total = 0 then
          .ok (some { cohort := key, data := [initialSample] })
        else
          match runOffsets env shas files total cohortEnd headEpoch offsetList with
          | .error e => .error e
          | .ok samples => .ok (some { cohort := key, data := initialSample :: samples })

/-- The reassignment head_date = head_date.replace(tzinfo=timezone.utc)
performed when the newest commit datetime is naive. -/
def fixTz (dt : PyDateTime) : PyDateTime :=
  if dt.tzOffMinutes = none then { dt with tzOffMinutes := some 0 } else dt

/-- Loop of get_survival_curves over the selected cohort keys, appending
each produced curve and skipping the cohorts the numstat failure skipped. -/
def curvesFold (env : GitEnv) (cohorts : List (String × List String)) (headEpoch : ℤ) :
    List String → List SurvivalCurve → Except PyErr (List SurvivalCurve)
  | [], acc => .ok acc
  | key :: rest, acc =>
    match cohortCurve env cohorts headEpoch key with
    | .error e => .error e
    | .ok none => curvesFold env cohorts headEpoch rest acc
    | .ok (some cv) => curvesFold env cohorts headEpoch rest (acc ++ [cv])

/-- Model of get_survival_curves: full history walk, empty-history early
return, quarter bucketing, selection of the last 8 keys in ascending
string order, newest-commit timestamp (made aware if naive), and the
per-cohort loop. -/
def getSurvivalCurves (env : GitEnv) : Except PyErr (List SurvivalCurve) :=
  match runGit env.logShaDate with
  | .error e => .error e
  | .ok out =>
    match parseCommits out with
    | .error e => .error e
    | .ok commits =>
      if commits.isEmpty then .ok []
      else
        let cohorts := buildCohorts commits
        let sortedKeys := takeLast 8 (List.insertionSort strLe (cohorts.map Prod.fst))
        if sortedKeys.isEmpty then .ok []
        else
          match pyMaxDT (commits.map Prod.snd) with
          | .error e => .error e
          | .ok headDT => curvesFold env cohorts (epochAbs (fixTz headDT)) sortedKeys []

/-! ### The four analyzers over the environment, and the orchestrator -/

/-- Model of get_hotspots as run against the clone. -/
def getHotspots (env : GitEnv) : Except PyErr (List HotspotEntry) :=
  match runGit env.logNameOnly with
  | .error e => .error e
  | .ok out => .ok (hotspotsOfLog out)

/-- Model of get_file_tree: hash-object for the empty tree id, then the
numstat diff against HEAD keyed by that stripped id. -/
def getFileTree (env : GitEnv) : Except PyErr (List FileTreeEntry) :=
  match runGit env.hashObject with
  | .error e => .error e
  | .ok etOut =>
    match runGit (env.diffNumstat (pyStrip etOut)) with
    | .error e => .error e
    | .ok out => fileTreeOfDiff out

/-- Model of get_churn as run against the clone. -/
def getChurn (env : GitEnv) : Except PyErr (List ChurnEntry) :=
  match runGit env.logNumstat with
  | .error e => .error e
  | .ok out => churnOfLog out

/-- Environment of one analyze_repo call: the clone outcome plus the
per-invocation outcomes for the four analyzers. -/
structure AnalysisEnv where
  git : GitEnv
  cloneResult : GitOut

/-- Model of clone_bare together with the fate of its temporary directory:
mkdtemp creates the directory, a clone failure (non-zero exit or timeout)
removes it in the except handler before re-raising, success leaves it in
place.  The boolean is the directory-exists state after the call. -/
def cloneBare (env : AnalysisEnv) : Except PyErr Unit × Bool :=
  match env.cloneResult with
  | .ok _ => (.ok (), true)
  | .exitFail => (.error .runtimeError, false)
  | .timedOut => (.error .timeoutExpired, false)

/-- Combined result dict of analyze_repo. -/
structure AnalyzeResult where
  hotspots : List HotspotEntry
  file_tree : List FileTreeEntry
  survival_curves : List SurvivalCurve
deriving DecidableEq

/-- Model of analyze_repo: clone (propagating its failure with the
directory already removed), run the four analyzers (asyncio.gather
propagates a failure of any of them; which one wins under concurrency is
timing-dependent, modelled positionally), merge churn into the file tree,
and in all cases remove the clone directory in the finally block.  The
boolean is the directory-exists state after the call returns or raises. -/
def analyzeRepo (env : AnalysisEnv) : Except PyErr AnalyzeResult × Bool :=
  match cloneBare env with
  | (.error e, dir) => (.error e, dir)
  | (.ok _, _) =>
    let res : Except PyErr AnalyzeResult :=
      match getHotspots env.git, getFileTree env.git, getChurn env.git,
          getSurvivalCurves env.git with
      | .ok hs, .ok ft, .ok ch, .ok sv =>
        .ok { hotspots := hs, file_tree := mergeChurn ft ch, survival_curves := sv }
      | .error e, _, _, _ => .error e
      | _, .error e, _, _ => .error e
      | _, _, .error e, _ => .error e
      | _, _, _, .error e => .error e
    (res, false)

/-! ### Tolerated line shapes of the best-effort parsers -/

/-- Shapes of a numeric diff-stat field that int(s) if s != "-" else 0
converts without raising. -/
def numFieldTol (a : String) : Prop := a = "-" ∨ (pyInt a).isSome = true

/-- Lines the file-tree parser survives: blank, fewer than three tab
fields, or a convertible first field. -/
def ftLineTol (line : String) : Prop :=
  pyStrip line = "" ∨
  match splitTabs (pyStrip line) with
  | a :: _ :: _ :: _ => numFieldTol a
  | _ => True

/-- Lines the churn parser survives: blank, fewer than three tab fields,
or convertible first and second fields. -/
def churnLineTol (line : String) : Prop :=
  pyStrip line = "" ∨
  match splitTabs (pyStrip line) with
  | a :: d :: _ :: _ => numFieldTol a ∧ numFieldTol d
  | _ => True

/-- Lines the history walk survives: blank, or a first space followed by
a parsable timestamp. -/
def commitLineTol (line : String) : Prop :=
  pyStrip line = "" ∨
  ∃ sha dstr, splitFirstSpace (pyStrip line).data = some (sha, dstr) ∧
    (parseIsoChars dstr).isSome = true

/-! ### Concrete environments for witnesses and counterexamples -/

/-- A 40-hex-length commit id used by the concrete runs. -/
def shaA : String := "aaaaaaaaaaaaaaaaaaaaaaaaaaaaaaaaaaaaaaaa"

/-- A second 40-hex-length commit id. -/
def shaB : String := "bbbbbbbbbbbbbbbbbbbbbbbbbbbbbbbbbbbbbbbb"

/-- A small fully successful run: one commit in 2024 Q1 and one in 2024
Q2, one touched file, blame attributing one line to the Q1 commit. -/
def envSamples : GitEnv :=
  { logNameOnly := .ok "f.py"
    hashObject := .ok "e"
    diffNumstat := fun _ => .ok "3\t0\tf.py"
    logNumstat := .ok "3\t1\tf.py"
    logShaDate := .ok
      (shaA ++ " 2024-01-15T10:00:00+00:00\n" ++ shaB ++ " 2024-06-20T00:00:00+02:00")
    cohortNumstat := fun _ _ => .ok "5\t2\tf.py"
    revList := fun _ => .ok "rrrr"
    blame := fun _ _ => some (0, shaA ++ " 1 1\n\tcontent") }

/-- A run whose single cohort reports zero total added lines. -/
def envZeroTotal : GitEnv :=
  { logNameOnly := .ok "f.py"
    hashObject := .ok "e"
    diffNumstat := fun _ => .ok "3\t0\tf.py"
    logNumstat := .ok "3\t1\tf.py"
    logShaDate := .ok (shaA ++ " 2024-01-15T10:00:00+00:00")
    cohortNumstat := fun _ _ => .ok ""
    revList := fun _ => .ok ""
    blame := fun _ _ => none }

/-- A run whose quarter-bounded numstat invocations exit non-zero. -/
def envCohortFail : GitEnv :=
  { envZeroTotal with cohortNumstat := fun _ _ => .exitFail }

/-- The analysis environment of a fully successful orchestrator run. -/
def envAnalysis : AnalysisEnv := { git := envZeroTotal, cloneResult := .ok "" }

/-- The 4-week sample of the sampled concrete run. -/
def sample45 : SurvivalSample := { weeks_elapsed := 4, surviving_lines := Rat.divInt 1 5 }

/-- The 8-week sample of the sampled concrete run. -/
def sample85 : SurvivalSample := { weeks_elapsed := 8, surviving_lines := Rat.divInt 1 5 }

/-- The 2024 Q1 curve the sampled concrete run produces. -/
def curveQ1 : SurvivalCurve := { cohort := "2024-Q1", data := [initialSample, sample45, sample85] }

/-- The 2024 Q2 curve the sampled concrete run produces. -/
def curveQ2 : SurvivalCurve := { cohort := "2024-Q2", data := [initialSample] }

/-- The single curve the zero-total concrete run produces. -/
def curveZero : SurvivalCurve := { cohort := "2024-Q1", data := [initialSample] }

/-- The parsed commits of the sampled concrete run. -/
def commitsSamples : List (String × PyDateTime) :=
  [(shaA, ⟨2024, 1, 15, 10, 0, 0, some 0⟩), (shaB, ⟨2024, 6, 20, 0, 0, 0, some 120⟩)]

/-- The combined result of the successful concrete orchestrator run. -/
def resAnalysis : AnalyzeResult :=
  { hotspots := [{ path := "f.py", change_count := 1, directory := "" }]
    file_tree := [{ path := "f.py", loc := 3, churn := 4 }]
    survival_curves := [curveZero] }

/-! ### Lemmas about the stable descending sort and first-seen order -/

theorem filter_orderedInsert_snd (k : ℕ) (a : String × ℕ) :
    ∀ l : List (String × ℕ),
      (List.orderedInsert countGe a l).filter (fun x => x.2 == k) =
        if a.2 = k then a :: l.filter (fun x => x.2 == k)
        else l.filter (fun x => x.2 == k)
  | [] => by
    by_cases hak : a.2 = k <;> simp [List.orderedInsert, List.filter_cons, hak]
  | b :: l => by
    have ih := filter_orderedInsert_snd k a l
    by_cases hab : countGe a b
    · simp only [List.orderedInsert, if_pos hab]
      by_cases hak : a.2 = k <;> simp [List.filter_cons, hak]
    · have hlt : a.2 < b.2 := lt_of_not_le hab
      simp only [List.orderedInsert, if_neg hab]
      rw [List.filter_cons, List.filter_cons, ih]
      by_cases hak : a.2 = k
      · have hbk : ¬ (b.2 = k) := by omega
        simp [hak, hbk]
      · simp [hak]

theorem filter_insertionSort_snd (k : ℕ) :
    ∀ l : List (String × ℕ),
      (List.insertionSort countGe l).filter (fun x => x.2 == k) =
        l.filter (fun x => x.2 == k)
  | [] => rfl
  | a :: l => by
    simp only [List.insertionSort]
    rw [filter_orderedInsert_snd k a (List.insertionSort countGe l),
      filter_insertionSort_snd k l, List.filter_cons]
    by_cases hak : a.2 = k <;> simp [hak]

theorem bumpCount_map_fst (p : String) :
    ∀ acc : List (String × ℕ),
      (bumpCount acc p).map Prod.fst =
        if p ∈ acc.map Prod.fst then acc.map Prod.fst else acc.map Prod.fst ++ [p]
  | [] => by simp [bumpCount]
  | (q, c) :: acc => by
    by_cases hq : q = p
    · subst hq; simp [bumpCount]
    · simp only [bumpCount, if_neg hq, List.map_cons]
      rw [bumpCount_map_fst p acc]
      by_cases hmem : p ∈ acc.map Prod.fst
      · simp [hmem, List.mem_cons, Ne.symm hq]
      · simp [hmem, List.mem_cons, Ne.symm hq]

theorem foldl_bumpCount_map_fst :
    ∀ (walked : List String) (acc : List (String × ℕ)),
      (walked.foldl bumpCount acc).map Prod.fst =
        walked.foldl (fun ks p => if p ∈ ks then ks else ks ++ [p]) (acc.map Prod.fst)
  | [], _ => rfl
  | p :: walked, acc => by
    simp only [List.foldl_cons]
    rw [foldl_bumpCount_map_fst walked (bumpCount acc p), bumpCount_map_fst p acc]

theorem foldl_strip_skip :
    ∀ (lines : List String) (acc : List (String × ℕ)),
      lines.foldl
          (fun acc line =>
            let p := pyStrip line
            if p = "" then acc else bumpCount acc p)
          acc =
        ((lines.map pyStrip).filter (fun p => p ≠ "")).foldl bumpCount acc
  | [], _ => rfl
  | line :: lines, acc => by
    simp only [List.foldl_cons, List.map_cons, List.filter_cons]
    by_cases h : pyStrip line = ""
    · simp only [h, if_pos rfl]
      simpa [h] using foldl_strip_skip lines acc
    · simp only [h, if_neg h]
      simpa [h] using foldl_strip_skip lines (bumpCount acc (pyStrip line))

theorem buildCounts_map_fst (out : String) :
    (buildCounts out).map Prod.fst = firstSeen (walkedPaths out) := by
  unfold buildCounts firstSeen walkedPaths
  rw [foldl_strip_skip, foldl_bumpCount_map_fst]
  rfl

/-- C3: hotspot entries emitted by get_hotspots are sorted non-increasing
by change_count, and entries with equal change_count appear in the order
their paths were first seen during the history walk. -/
theorem hotspots_sorted_and_stable (out : String) :
    (hotspotsOfLog out).Pairwise (fun a b =>
      b.change_count ≤ a.change_count ∧
      (a.change_count = b.change_count →
        List.Sublist [a.path, b.path] (firstSeen (walkedPaths out)))) := by
  unfold hotspotsOfLog
  rw [List.pairwise_map, List.pairwise_iff_forall_sublist]
  intro x y hsub
  have hsorted := List.sorted_insertionSort countGe (buildCounts out)
  refine ⟨List.pairwise_iff_forall_sublist.mp hsorted hsub, ?_⟩
  intro heq
  have heq2 : y.2 = x.2 := by simpa using heq.symm
  have hfil : [x, y].filter (fun z => z.2 == x.2) = [x, y] := by
    simp [List.filter_cons, heq2]
  have h1 : List.Sublist [x, y]
      ((List.insertionSort countGe (buildCounts out)).filter (fun z => z.2 == x.2)) := by
    rw [← hfil]; exact hsub.filter _
  rw [filter_insertionSort_snd x.2] at h1
  have h2 : List.Sublist [x, y] (buildCounts out) := h1.trans (List.filter_sublist _)
  have h3 : List.Sublist [x.1, y.1] ((buildCounts out).map Prod.fst) := by
    simpa using h2.map Prod.fst
  rwa [buildCounts_map_fst] at h3

/-! ### Lemmas for the churn merge (C2) -/

theorem bumpChurn_map_path (p : String) (a d : ℤ) :
    ∀ acc : List ChurnEntry,
      (bumpChurn acc p a d).map (fun e => e.path) =
        if p ∈ acc.map (fun e => e.path) then acc.map (fun e => e.path)
        else acc.map (fun e => e.path) ++ [p]
  | [] => by simp [bumpChurn]
  | e :: acc => by
    by_cases hq : e.path = p
    · simp [bumpChurn, hq]
    · simp only [bumpChurn, if_neg hq, List.map_cons]
      rw [bumpChurn_map_path p a d acc]
      by_cases hmem : p ∈ acc.map (fun e => e.path)
      · simp [hmem, List.mem_cons, Ne.symm hq]
      · simp [hmem, List.mem_cons, Ne.symm hq]

theorem bumpChurn_nodup_path (p : String) (a d : ℤ) (acc : List ChurnEntry)
    (h : (acc.map (fun e => e.path)).Nodup) :
    ((bumpChurn acc p a d).map (fun e => e.path)).Nodup := by
  rw [bumpChurn_map_path]
  by_cases hmem : p ∈ acc.map (fun e => e.path)
  · simpa [hmem] using h
  · rw [if_neg hmem]
    refine List.Nodup.append h (List.nodup_singleton p) ?_
    intro x hx hxp
    rw [List.mem_singleton] at hxp
    exact hmem (hxp ▸ hx)

theorem churnLines_nodup_path :
    ∀ (lines : List String) (acc : List ChurnEntry),
      (acc.map (fun e => e.path)).Nodup →
      ∀ l, churnLines lines acc = .ok l → (l.map (fun e => e.path)).Nodup
  | [], acc, h, l, hok => by
    simp only [churnLines] at hok
    injection hok with hok
    exact hok ▸ h
  | line :: rest, acc, h, l, hok => by
    simp only [churnLines] at hok
    by_cases hblank : pyStrip line = ""
    · rw [if_pos hblank] at hok
      exact churnLines_nodup_path rest acc h l hok
    · rw [if_neg hblank] at hok
      split at hok
      case _ x a d p tl heq =>
        cases ha : numstatField a with
        | error _ => rw [ha] at hok; simp [Bind.bind, Except.bind] at hok
        | ok adds =>
          cases hd : numstatField d with
          | error _ => rw [ha, hd] at hok; simp [Bind.bind, Except.bind] at hok
          | ok dels =>
            rw [ha, hd] at hok
            simp only [Bind.bind, Except.bind] at hok
            exact churnLines_nodup_path rest (bumpChurn acc p adds dels)
              (bumpChurn_nodup_path p adds dels acc h) l hok
      case _ => exact churnLines_nodup_path rest acc h l hok

theorem churnOfLog_nodup_path (out : String) (ch : List ChurnEntry)
    (h : churnOfLog out = .ok ch) : (ch.map (fun e => e.path)).Nodup := by
  unfold churnOfLog at h
  cases hacc : churnLines (splitLines out) [] with
  | error e => rw [hacc] at h; simp [Except.map] at h
  | ok l =>
    rw [hacc] at h
    simp only [Except.map] at h
    injection h with h
    have hnd := churnLines_nodup_path (splitLines out) [] (by simp) l hacc
    have hperm : List.Perm (List.insertionSort churnTotGe l) l :=
      List.perm_insertionSort churnTotGe l
    have := (hperm.map (fun e => e.path)).symm.nodup hnd
    exact h ▸ this

/-- C2: after the orchestrator merge, every file-tree entry's churn equals
additions+deletions of the (unique) churn entry with the same path, and 0
when no churn entry has that path, for every pair of analyzer outputs. -/
theorem merge_churn_by_path (ftOut chOut : String) (ft : List FileTreeEntry)
    (ch : List ChurnEntry) (hft : fileTreeOfDiff ftOut = .ok ft)
    (hch : churnOfLog chOut = .ok ch) :
    (ch.map (fun c => c.path)).Nodup ∧
    ∀ e ∈ mergeChurn ft ch,
      (∃ c ∈ ch, c.path = e.path ∧ e.churn = c.additions + c.deletions) ∨
      ((∀ c ∈ ch, c.path ≠ e.path) ∧ e.churn = 0) := by
  refine ⟨churnOfLog_nodup_path chOut ch hch, ?_⟩
  intro e he
  unfold mergeChurn at he
  rcases List.mem_map.mp he with ⟨e0, _, rfl⟩
  unfold churnMapGet
  cases hfind : ch.reverse.find? (fun c => c.path == e0.path) with
  | some c =>
    left
    refine ⟨c, ?_, ?_, ?_⟩
    · have := List.mem_of_find?_eq_some hfind
      exact (List.mem_reverse).mp this
    · simpa using List.find?_some hfind
    · simp [hfind]
  | none =>
    right
    constructor
    · intro c hc
      have := List.find?_eq_none.mp hfind c (List.mem_reverse.mpr hc)
      simpa using this
    · simp [hfind]

/-- Witness for C2 at concrete analyzer outputs, instantiated at the
merged entry of path a.py (whose churn is 5 + 2 = 7). -/
theorem merge_churn_by_path_witness :
    (∃ c ∈ [({ path := "a.py", additions := 5, deletions := 2 } : ChurnEntry)],
      c.path = ({ path := "a.py", loc := 3, churn := 7 } : FileTreeEntry).path ∧
      ({ path := "a.py", loc := 3, churn := 7 } : FileTreeEntry).churn =
        c.additions + c.deletions) ∨
    ((∀ c ∈ [({ path := "a.py", additions := 5, deletions := 2 } : ChurnEntry)],
      c.path ≠ ({ path := "a.py", loc := 3, churn := 7 } : FileTreeEntry).path) ∧
      ({ path := "a.py", loc := 3, churn := 7 } : FileTreeEntry).churn = 0) :=
  (merge_churn_by_path "3\t0\ta.py\n1\t0\tb.py" "5\t2\ta.py"
    [{ path := "a.py", loc := 3, churn := 0 }, { path := "b.py", loc := 1, churn := 0 }]
    [{ path := "a.py", additions := 5, deletions := 2 }] (by rfl) (by rfl)).2
    { path := "a.py", loc := 3, churn := 7 } (by decide)

/-! ### Bounds of the rounding and clamping (for C5) -/

theorem roundHalfEven_cases (x : ℚ) :
    roundHalfEven x = x.num / (x.den : ℤ) ∨
      (roundHalfEven x = x.num / (x.den : ℤ) + 1 ∧ 0 < x.num % (x.den : ℤ)) := by
  unfold roundHalfEven
  simp only []
  have hD : 0 < (x.den : ℤ) := by exact_mod_cast x.den_pos
  have hr : 0 ≤ x.num % (x.den : ℤ) := Int.emod_nonneg _ (ne_of_gt hD)
  split_ifs with h1 h2 h3
  · exact Or.inl rfl
  · exact Or.inr ⟨rfl, by omega⟩
  · exact Or.inl rfl
  · exact Or.inr ⟨rfl, by omega⟩

theorem roundHalfEven_nonneg (x : ℚ) (h : 0 ≤ x) : 0 ≤ roundHalfEven x := by
  have hD : 0 < (x.den : ℤ) := by exact_mod_cast x.den_pos
  have hnum : 0 ≤ x.num := Rat.num_nonneg.mpr h
  have hn : 0 ≤ x.num / (x.den : ℤ) := Int.ediv_nonneg hnum hD.le
  rcases roundHalfEven_cases x with h1 | ⟨h1, _⟩ <;> omega

theorem roundHalfEven_le_of_le (x : ℚ) (M : ℤ) (h : x ≤ (M : ℚ)) : roundHalfEven x ≤ M := by
  have hD : 0 < (x.den : ℤ) := by exact_mod_cast x.den_pos
  have hnum : x.num ≤ M * (x.den : ℤ) := by
    have h2 : Rat.divInt x.num (x.den : ℤ) ≤ Rat.divInt M 1 := by
      rw [Rat.num_divInt_den, Rat.divInt_one]
      exact h
    have h3 := (Rat.divInt_le_divInt hD one_pos).mp h2
    omega
  have hdm := Int.ediv_add_emod x.num (x.den : ℤ)
  have hr0 : 0 ≤ x.num % (x.den : ℤ) := Int.emod_nonneg _ (ne_of_gt hD)
  have hrlt : x.num % (x.den : ℤ) < (x.den : ℤ) := Int.emod_lt_of_pos _ hD
  have hn : x.num / (x.den : ℤ) ≤ M := by
    have h3 := Int.ediv_le_ediv hD hnum
    rwa [Int.mul_ediv_cancel _ (ne_of_gt hD)] at h3
  rcases roundHalfEven_cases x with h1 | ⟨h1, hrpos⟩
  · omega
  · by_cases hnM : x.num / (x.den : ℤ) = M
    · exfalso
      rw [hnM] at hdm
      nlinarith
    · omega

theorem round4_nonneg (q : ℚ) (h : 0 ≤ q) : 0 ≤ round4 q := by
  unfold round4
  have hD : (0 : ℤ) ≤ (q.den : ℤ) := by exact_mod_cast q.den_pos.le
  have hnum : 0 ≤ q.num := Rat.num_nonneg.mpr h
  have hx : 0 ≤ Rat.divInt (q.num * 10000) (q.den : ℤ) :=
    Rat.divInt_nonneg (by nlinarith) hD
  exact Rat.divInt_nonneg (roundHalfEven_nonneg _ hx) (by norm_num)

theorem round4_le_one (q : ℚ) (h1 : q ≤ 1) : round4 q ≤ 1 := by
  unfold round4
  have hD : 0 < (q.den : ℤ) := by exact_mod_cast q.den_pos
  have hnd : q.num ≤ (q.den : ℤ) := by
    have h2 : Rat.divInt q.num (q.den : ℤ) ≤ Rat.divInt 1 1 := by
      rw [Rat.num_divInt_den, Rat.divInt_one]
      exact_mod_cast h1
    have h3 := (Rat.divInt_le_divInt hD one_pos).mp h2
    omega
  have hxle : Rat.divInt (q.num * 10000) (q.den : ℤ) ≤ ((10000 : ℤ) : ℚ) := by
    rw [show ((10000 : ℤ) : ℚ) = Rat.divInt 10000 1 from (Rat.divInt_one 10000).symm]
    rw [Rat.divInt_le_divInt hD one_pos]
    nlinarith
  have hR := roundHalfEven_le_of_le _ 10000 hxle
  have hfin : Rat.divInt (roundHalfEven (Rat.divInt (q.num * 10000) (q.den : ℤ))) 10000 ≤
      Rat.divInt 10000 10000 := by
    rw [Rat.divInt_le_divInt (by norm_num) (by norm_num)]
    nlinarith
  have h10 : Rat.divInt 10000 10000 = (1 : ℚ) := by decide
  rwa [h10] at hfin

/-! ### Lemmas about the sampling loop (for C5 and C6) -/

theorem runOffsets_spec (env : GitEnv) (shas files : List String) (total : ℤ)
    (cohortEnd headEpoch : ℤ) :
    ∀ (ws : List ℕ) (samples : List SurvivalSample),
      runOffsets env shas files total cohortEnd headEpoch ws = .ok samples →
      ∀ s ∈ samples,
        s.weeks_elapsed ∈ ws ∧
        cohortEnd + 604800 * (s.weeks_elapsed : ℤ) ≤ headEpoch ∧
        ∃ out, env.revList (cohortEnd + 604800 * (s.weeks_elapsed : ℤ)) = .ok out ∧
          pyStrip out ≠ "" ∧
          s.surviving_lines =
            round4 (min (Rat.divInt ((countSurviving env (pyStrip out) files shas : ℕ) : ℤ) total) 1)
  | [], samples, h, s, hs => by
    simp only [runOffsets] at h
    injection h with h
    subst h
    simp at hs
  | w :: ws, samples, h, s, hs => by
    simp only [runOffsets] at h
    by_cases hhead : headEpoch < cohortEnd + 604800 * (w : ℤ)
    · rw [if_pos hhead] at h
      injection h with h
      subst h
      simp at hs
    · rw [if_neg hhead] at h
      cases hrl : env.revList (cohortEnd + 604800 * (w : ℤ)) with
      | exitFail =>
        rw [hrl] at h
        have hres := runOffsets_spec env shas files total cohortEnd headEpoch ws samples h s hs
        exact ⟨List.mem_cons_of_mem _ hres.1, hres.2⟩
      | timedOut => rw [hrl] at h; cases h
      | ok out =>
        rw [hrl] at h
        dsimp only at h
        by_cases hrev : pyStrip out = ""
        · rw [if_pos hrev] at h
          have hres := runOffsets_spec env shas files total cohortEnd headEpoch ws samples h s hs
          exact ⟨List.mem_cons_of_mem _ hres.1, hres.2⟩
        · rw [if_neg hrev] at h
          cases hrest : runOffsets env shas files total cohortEnd headEpoch ws with
          | error e => rw [hrest] at h; cases h
          | ok rest =>
            rw [hrest] at h
            injection h with h
            subst h
            rcases List.mem_cons.mp hs with rfl | hmem
            · refine ⟨List.mem_cons_self _ _, not_lt.mp hhead, out, hrl, hrev, rfl⟩
            · have hres := runOffsets_spec env shas files total cohortEnd headEpoch ws rest hrest s hmem
              exact ⟨List.mem_cons_of_mem _ hres.1, hres.2⟩

theorem runOffsets_weeks_sublist (env : GitEnv) (shas files : List String) (total : ℤ)
    (cohortEnd headEpoch : ℤ) :
    ∀ (ws : List ℕ) (samples : List SurvivalSample),
      runOffsets env shas files total cohortEnd headEpoch ws = .ok samples →
      List.Sublist (samples.map (fun s => s.weeks_elapsed)) ws
  | [], samples, h => by
    simp only [runOffsets] at h
    injection h with h
    subst h
    simp
  | w :: ws, samples, h => by
    simp only [runOffsets] at h
    by_cases hhead : headEpoch < cohortEnd + 604800 * (w : ℤ)
    · rw [if_pos hhead] at h
      injection h with h
      subst h
      simp
    · rw [if_neg hhead] at h
      cases hrl : env.revList (cohortEnd + 604800 * (w : ℤ)) with
      | exitFail =>
        rw [hrl] at h
        exact (runOffsets_weeks_sublist env shas files total cohortEnd headEpoch ws samples h).cons w
      | timedOut => rw [hrl] at h; cases h
      | ok out =>
        rw [hrl] at h
        dsimp only at h
        by_cases hrev : pyStrip out = ""
        · rw [if_pos hrev] at h
          exact (runOffsets_weeks_sublist env shas files total cohortEnd headEpoch ws samples h).cons w
        · rw [if_neg hrev] at h
          cases hrest : runOffsets env shas files total cohortEnd headEpoch ws with
          | error e => rw [hrest] at h; cases h
          | ok rest =>
            rw [hrest] at h
            injection h with h
            subst h
            simpa using
              (runOffsets_weeks_sublist env shas files total cohortEnd headEpoch ws rest hrest).cons₂ w

theorem runOffsets_complete (env : GitEnv) (shas files : List String) (total : ℤ)
    (cohortEnd headEpoch : ℤ) :
    ∀ (ws : List ℕ) (samples : List SurvivalSample),
      ws.Pairwise (fun a b => a ≤ b) →
      runOffsets env shas files total cohortEnd headEpoch ws = .ok samples →
      ∀ w ∈ ws, cohortEnd + 604800 * (w : ℤ) ≤ headEpoch →
        ∀ out, env.revList (cohortEnd + 604800 * (w : ℤ)) = .ok out → pyStrip out ≠ "" →
          ∃ s ∈ samples, s.weeks_elapsed = w
  | [], samples, _, h, w, hw, _, _, _, _ => by simp at hw
  | w0 :: ws, samples, hpw, h, w, hw, hwhead, out, hout, hrev => by
    simp only [runOffsets] at h
    by_cases hhead : headEpoch < cohortEnd + 604800 * (w0 : ℤ)
    · exfalso
      rcases List.mem_cons.mp hw with rfl | hmem
      · exact absurd hwhead (not_le.mpr hhead)
      · have hle : w0 ≤ w := (List.pairwise_cons.mp hpw).1 w hmem
        have hle2 : (w0 : ℤ) ≤ (w : ℤ) := by exact_mod_cast hle
        have : cohortEnd + 604800 * (w0 : ℤ) ≤ cohortEnd + 604800 * (w : ℤ) := by nlinarith
        omega
    · rw [if_neg hhead] at h
      rcases List.mem_cons.mp hw with rfl | hmem
      · rw [hout] at h
        dsimp only at h
        rw [if_neg hrev] at h
        cases hrest : runOffsets env shas files total cohortEnd headEpoch ws with
        | error e => rw [hrest] at h; cases h
        | ok rest =>
          rw [hrest] at h
          injection h with h
          subst h
          exact ⟨_, List.mem_cons_self _ _, rfl⟩
      · have hpw2 := (List.pairwise_cons.mp hpw).2
        cases hrl : env.revList (cohortEnd + 604800 * (w0 : ℤ)) with
        | exitFail =>
          rw [hrl] at h
          exact runOffsets_complete env shas files total cohortEnd headEpoch ws samples hpw2 h
            w hmem hwhead out hout hrev
        | timedOut => rw [hrl] at h; cases h
        | ok out0 =>
          rw [hrl] at h
          dsimp only at h
          by_cases hrev0 : pyStrip out0 = ""
          · rw [if_pos hrev0] at h
            exact runOffsets_complete env shas files total cohortEnd headEpoch ws samples hpw2 h
              w hmem hwhead out hout hrev
          · rw [if_neg hrev0] at h
            cases hrest : runOffsets env shas files total cohortEnd headEpoch ws with
            | error e => rw [hrest] at h; cases h
            | ok rest =>
              rw [hrest] at h
              injection h with h
              subst h
              rcases runOffsets_complete env shas files total cohortEnd headEpoch ws rest hpw2 hrest
                  w hmem hwhead out hout hrev with ⟨s, hsmem, hsw⟩
              exact ⟨s, List.mem_cons_of_mem _ hsmem, hsw⟩

/-- C6: in the sampling loop over offsets 4, 8, ..., 52 weeks, a projected
instant past the newest commit stops iteration entirely (no emitted sample
lies past it), an offset whose revision search fails or finds nothing is
skipped alone (every offset within range at which the search finds a
nonempty revision is emitted), and the emitted weeks_elapsed values are
strictly increasing (a subsequence of the offset list). -/
theorem survival_offset_iteration (env : GitEnv) (shas files : List String) (total : ℤ)
    (cohortEnd headEpoch : ℤ) (samples : List SurvivalSample)
    (h : runOffsets env shas files total cohortEnd headEpoch offsetList = .ok samples) :
    (∀ s ∈ samples, cohortEnd + 604800 * (s.weeks_elapsed : ℤ) ≤ headEpoch) ∧
    (∀ w ∈ offsetList, cohortEnd + 604800 * (w : ℤ) ≤ headEpoch →
      ∀ out, env.revList (cohortEnd + 604800 * (w : ℤ)) = .ok out → pyStrip out ≠ "" →
        ∃ s ∈ samples, s.weeks_elapsed = w) ∧
    List.Sublist (samples.map (fun s => s.weeks_elapsed)) offsetList ∧
    (samples.map (fun s => s.weeks_elapsed)).Pairwise (fun a b => a < b) := by
  have hsub := runOffsets_weeks_sublist env shas files total cohortEnd headEpoch offsetList samples h
  refine ⟨?_, ?_, hsub, ?_⟩
  · intro s hs
    exact (runOffsets_spec env shas files total cohortEnd headEpoch offsetList samples h s hs).2.1
  · intro w hw hwhead out hout hrev
    exact runOffsets_complete env shas files total cohortEnd headEpoch offsetList samples
      (by unfold offsetList; decide) h w hw hwhead out hout hrev
  · exact List.Pairwise.sublist hsub (by unfold offsetList; decide)

/-! ### Dissection of the per-cohort loop and the curve list -/

theorem cohortCurve_some_spec (env : GitEnv) (cohorts : List (String × List String))
    (headEpoch : ℤ) (key : String) (cv : SurvivalCurve)
    (h : cohortCurve env cohorts headEpoch key = .ok (some cv)) :
    cv.cohort = key ∧
    ∃ aS bS cE out total files,
      quarterDates key = .ok (aS, bS, cE) ∧
      env.cohortNumstat aS bS = .ok out ∧
      cohortStats out = .ok (total, files) ∧
      ((total = 0 ∧ cv.data = [initialSample]) ∨
        (¬ total = 0 ∧ ∃ samples,
          runOffsets env (((cohorts.find? (fun kc => kc.1 == key)).map Prod.snd).getD [])
            files total cE headEpoch offsetList = .ok samples ∧
          cv.data = initialSample :: samples)) := by
  unfold cohortCurve at h
  cases hqd : quarterDates key with
  | error e => rw [hqd] at h; cases h
  | ok trip =>
    obtain ⟨aS, bS, cE⟩ := trip
    rw [hqd] at h
    dsimp only at h
    cases hns : env.cohortNumstat aS bS with
    | exitFail => rw [hns] at h; simp at h
    | timedOut => rw [hns] at h; cases h
    | ok out =>
      rw [hns] at h
      dsimp only at h
      cases hcs : cohortStats out with
      | error e => rw [hcs] at h; cases h
      | ok tf =>
        obtain ⟨total, files⟩ := tf
        rw [hcs] at h
        dsimp only at h
        by_cases htz : total = 0
        · rw [if_pos htz] at h
          injection h with h
          injection h with h
          subst h
          exact ⟨rfl, aS, bS, cE, out, total, files, rfl, hns, hcs, Or.inl ⟨htz, rfl⟩⟩
        · rw [if_neg htz] at h
          cases hro : runOffsets env
              (((cohorts.find? (fun kc => kc.1 == key)).map Prod.snd).getD [])
              files total cE headEpoch offsetList with
          | error e => rw [hro] at h; cases h
          | ok samples =>
            rw [hro] at h
            injection h with h
            injection h with h
            subst h
            exact ⟨rfl, aS, bS, cE, out, total, files, rfl, hns, hcs,
              Or.inr ⟨htz, samples, hro, rfl⟩⟩

theorem curvesFold_mem (env : GitEnv) (cohorts : List (String × List String)) (headEpoch : ℤ) :
    ∀ (keys : List String) (acc res : List SurvivalCurve),
      curvesFold env cohorts headEpoch keys acc = .ok res →
      ∀ c ∈ res, c ∈ acc ∨ ∃ key ∈ keys, cohortCurve env cohorts headEpoch key = .ok (some c)
  | [], acc, res, h, c, hc => by
    simp only [curvesFold] at h
    injection h with h
    subst h
    exact Or.inl hc
  | key :: rest, acc, res, h, c, hc => by
    simp only [curvesFold] at h
    cases hcc : cohortCurve env cohorts headEpoch key with
    | error e => rw [hcc] at h; cases h
    | ok o =>
      rw [hcc] at h
      cases o with
      | none =>
        rcases curvesFold_mem env cohorts headEpoch rest acc res h c hc with h1 | ⟨k, hk, hcv⟩
        · exact Or.inl h1
        · exact Or.inr ⟨k, List.mem_cons_of_mem _ hk, hcv⟩
      | some cv =>
        rcases curvesFold_mem env cohorts headEpoch rest (acc ++ [cv]) res h c hc with
          h1 | ⟨k, hk, hcv⟩
        · rcases List.mem_append.mp h1 with h2 | h2
          · exact Or.inl h2
          · rw [List.mem_singleton] at h2
            exact Or.inr ⟨key, List.mem_cons_self _ _, h2 ▸ hcc⟩
        · exact Or.inr ⟨k, List.mem_cons_of_mem _ hk, hcv⟩

theorem curvesFold_cohort_sublist (env : GitEnv) (cohorts : List (String × List String))
    (headEpoch : ℤ) :
    ∀ (keys : List String) (acc res : List SurvivalCurve),
      curvesFold env cohorts headEpoch keys acc = .ok res →
      List.Sublist (res.map (fun c => c.cohort)) (acc.map (fun c => c.cohort) ++ keys)
  | [], acc, res, h => by
    simp only [curvesFold] at h
    injection h with h
    subst h
    simp
  | key :: rest, acc, res, h => by
    simp only [curvesFold] at h
    cases hcc : cohortCurve env cohorts headEpoch key with
    | error e => rw [hcc] at h; cases h
    | ok o =>
      rw [hcc] at h
      cases o with
      | none =>
        have hs := curvesFold_cohort_sublist env cohorts headEpoch rest acc res h
        refine hs.trans (List.Sublist.append_left ?_ _)
        exact List.sublist_cons_self key rest
      | some cv =>
        have hs := curvesFold_cohort_sublist env cohorts headEpoch rest (acc ++ [cv]) res h
        have hkey : cv.cohort = key := (cohortCurve_some_spec env cohorts headEpoch key cv hcc).1
        have heq : (acc ++ [cv]).map (fun c => c.cohort) ++ rest =
            acc.map (fun c => c.cohort) ++ (key :: rest) := by
          simp [hkey]
        rwa [heq] at hs

theorem getSurvivalCurves_shape (env : GitEnv) (cs : List SurvivalCurve)
    (h : getSurvivalCurves env = .ok cs) :
    ∃ out, runGit env.logShaDate = .ok out ∧
      ((parseCommits out = .ok [] ∧ cs = []) ∨
        (∃ commits headDT, parseCommits out = .ok commits ∧ commits ≠ [] ∧
          pyMaxDT (commits.map Prod.snd) = .ok headDT ∧
          curvesFold env (buildCohorts commits) (epochAbs (fixTz headDT))
            (takeLast 8 (List.insertionSort strLe ((buildCohorts commits).map Prod.fst)))
            [] = .ok cs) ∨
        (∃ commits, parseCommits out = .ok commits ∧ commits ≠ [] ∧
          (takeLast 8 (List.insertionSort strLe ((buildCohorts commits).map Prod.fst))).isEmpty =
            true ∧ cs = [])) := by
  unfold getSurvivalCurves at h
  cases hrg : runGit env.logShaDate with
  | error e => rw [hrg] at h; cases h
  | ok out =>
    rw [hrg] at h
    dsimp only at h
    cases hpc : parseCommits out with
    | error e => rw [hpc] at h; cases h
    | ok commits =>
      rw [hpc] at h
      dsimp only at h
      by_cases hemp : commits.isEmpty
      · rw [if_pos hemp] at h
        injection h with h
        subst h
        have hnil : commits = [] := by simpa using hemp
        exact ⟨out, rfl, Or.inl ⟨hnil ▸ hpc, rfl⟩⟩
      · rw [if_neg hemp] at h
        have hne : commits ≠ [] := by
          intro he
          exact hemp (by simp [he])
        by_cases hsk :
            (takeLast 8 (List.insertionSort strLe ((buildCohorts commits).map Prod.fst))).isEmpty
        · rw [if_pos hsk] at h
          injection h with h
          subst h
          exact ⟨out, rfl, Or.inr (Or.inr ⟨commits, hpc, hne, hsk, rfl⟩)⟩
        · rw [if_neg hsk] at h
          cases hmax : pyMaxDT (commits.map Prod.snd) with
          | error e => rw [hmax] at h; cases h
          | ok headDT =>
            rw [hmax] at h
            dsimp only at h
            exact ⟨out, rfl, Or.inr (Or.inl ⟨commits, headDT, hpc, hne, hmax, h⟩)⟩

theorem getSurvivalCurves_mem (env : GitEnv) (cs : List SurvivalCurve)
    (h : getSurvivalCurves env = .ok cs) (c : SurvivalCurve) (hc : c ∈ cs) :
    ∃ cohorts headEpoch, cohortCurve env cohorts headEpoch c.cohort = .ok (some c) := by
  rcases getSurvivalCurves_shape env cs h with ⟨out, hrg, hbr⟩
  rcases hbr with ⟨hpc, rfl⟩ | ⟨commits, headDT, hpc, hne, hmax, hfold⟩ |
    ⟨commits, hpc, hne, hsk, rfl⟩
  · simp at hc
  · rcases curvesFold_mem _ _ _ _ _ _ hfold c hc with hacc | ⟨key, _, hcv⟩
    · simp at hacc
    · have hk := (cohortCurve_some_spec _ _ _ _ _ hcv).1
      exact ⟨_, _, hk.symm ▸ hcv⟩
  · simp at hc

/-- C4: every survival curve has a non-empty sample list starting with
exactly (weeks_elapsed 0, surviving_lines 1), and a cohort whose
quarter-bounded query reports zero total added lines yields exactly that
single sample. -/
theorem survival_curve_first_sample (env : GitEnv) (cs : List SurvivalCurve)
    (h : getSurvivalCurves env = .ok cs) :
    ∀ c ∈ cs,
      (c.data ≠ [] ∧ c.data.head? = some initialSample) ∧
      ∀ aS bS cE out files, quarterDates c.cohort = .ok (aS, bS, cE) →
        env.cohortNumstat aS bS = .ok out → cohortStats out = .ok (0, files) →
        c.data = [initialSample] := by
  intro c hc
  obtain ⟨cohorts, headEpoch, hcc⟩ := getSurvivalCurves_mem env cs h c hc
  obtain ⟨hkey, aS2, bS2, cE2, out2, total2, files2, hqd2, hns2, hcs2, hbranch⟩ :=
    cohortCurve_some_spec _ _ _ _ _ hcc
  constructor
  · rcases hbranch with ⟨_, hdata⟩ | ⟨_, samples, _, hdata⟩ <;> rw [hdata] <;> simp
  · intro aS bS cE out files hqd hns hcs
    rw [hqd] at hqd2
    injection hqd2 with hqd2
    obtain ⟨rfl, rfl, rfl⟩ : aS = aS2 ∧ bS = bS2 ∧ cE = cE2 := by
      refine ⟨?_, ?_, ?_⟩ <;> cases hqd2 <;> rfl
    rw [hns] at hns2
    injection hns2 with hns2
    subst hns2
    rw [hcs] at hcs2
    injection hcs2 with hcs2
    injection hcs2 with hts hfs
    rcases hbranch with ⟨_, hdata⟩ | ⟨htnz, _⟩
    · exact hdata
    · exact absurd hts.symm htnz

/-- C5: every sample of every survival curve, under the precondition that
the cohort total added count is positive, has surviving_lines within
[0, 1], and each positive-offset sample value is exactly the rounded
clamped blame-count fraction min(matched / totalAdded, 1) rounded to four
decimal places. -/
theorem survival_sample_bounds (env : GitEnv) (cs : List SurvivalCurve)
    (h : getSurvivalCurves env = .ok cs) :
    ∀ c ∈ cs, ∀ aS bS cE out total files,
      quarterDates c.cohort = .ok (aS, bS, cE) →
      env.cohortNumstat aS bS = .ok out →
      cohortStats out = .ok (total, files) →
      0 < total →
      ∀ s ∈ c.data,
        0 ≤ s.surviving_lines ∧ s.surviving_lines ≤ 1 ∧
        (0 < s.weeks_elapsed →
          ∃ shas rout, env.revList (cE + 604800 * (s.weeks_elapsed : ℤ)) = .ok rout ∧
            s.surviving_lines =
              round4 (min (Rat.divInt ((countSurviving env (pyStrip rout) files shas : ℕ) : ℤ)
                total) 1)) := by
  intro c hc aS bS cE out total files hqd hns hcs htpos
  obtain ⟨cohorts, headEpoch, hcc⟩ := getSurvivalCurves_mem env cs h c hc
  obtain ⟨hkey, aS2, bS2, cE2, out2, total2, files2, hqd2, hns2, hcs2, hbranch⟩ :=
    cohortCurve_some_spec _ _ _ _ _ hcc
  rw [hqd] at hqd2
  injection hqd2 with hqd2
  obtain ⟨rfl, rfl, rfl⟩ : aS = aS2 ∧ bS = bS2 ∧ cE = cE2 := by
    refine ⟨?_, ?_, ?_⟩ <;> cases hqd2 <;> rfl
  rw [hns] at hns2
  injection hns2 with hns2
  subst hns2
  rw [hcs] at hcs2
  injection hcs2 with hcs2
  injection hcs2 with hts hfs
  subst hts
  subst hfs
  rcases hbranch with ⟨htz, _⟩ | ⟨_, samples, hro, hdata⟩
  · omega
  · intro s hs
    rw [hdata] at hs
    rcases List.mem_cons.mp hs with rfl | hmem
    · refine ⟨by norm_num [initialSample], by norm_num [initialSample], ?_⟩
      intro habs
      simp [initialSample] at habs
    · obtain ⟨_, _, rout, hrl, hrev, hval⟩ :=
        runOffsets_spec env _ files total cE headEpoch offsetList samples hro s hmem
      have hmge : (0 : ℤ) ≤ ((countSurviving env (pyStrip rout) files
          (((cohorts.find? (fun kc => kc.1 == c.cohort)).map Prod.snd).getD []) : ℕ) : ℤ) := by
        positivity
      have hq0 : 0 ≤ min (Rat.divInt ((countSurviving env (pyStrip rout) files
          (((cohorts.find? (fun kc => kc.1 == c.cohort)).map Prod.snd).getD []) : ℕ) : ℤ)
          total) 1 :=
        le_min (Rat.divInt_nonneg hmge (by exact_mod_cast htpos.le)) zero_le_one
      have hq1 : min (Rat.divInt ((countSurviving env (pyStrip rout) files
          (((cohorts.find? (fun kc => kc.1 == c.cohort)).map Prod.snd).getD []) : ℕ) : ℤ)
          total) 1 ≤ 1 := min_le_right _ _
      refine ⟨hval ▸ round4_nonneg _ hq0, hval ▸ round4_le_one _ hq1, ?_⟩
      intro _
      exact ⟨_, rout, hrl, hval⟩

/-! ### Lemmas about cohort keys (for C9) -/

theorem addCohort_map_fst (k sha : String) :
    ∀ m : List (String × List String),
      (addCohort m k sha).map Prod.fst =
        if k ∈ m.map Prod.fst then m.map Prod.fst else m.map Prod.fst ++ [k]
  | [] => by simp [addCohort]
  | (k2, s) :: m => by
    by_cases hk : k2 = k
    · subst hk; simp [addCohort]
    · simp only [addCohort, if_neg hk, List.map_cons]
      rw [addCohort_map_fst k sha m]
      by_cases hmem : k ∈ m.map Prod.fst
      · simp [hmem, List.mem_cons, Ne.symm hk]
      · simp [hmem, List.mem_cons, Ne.symm hk]

theorem foldl_addCohort_nodup :
    ∀ (commits : List (String × PyDateTime)) (m : List (String × List String)),
      (m.map Prod.fst).Nodup →
      ((commits.foldl (fun acc sd => addCohort acc (cohortKeyOf sd.2) sd.1) m).map
        Prod.fst).Nodup
  | [], _, h => h
  | sd :: commits, m, h => by
    simp only [List.foldl_cons]
    apply foldl_addCohort_nodup commits
    rw [addCohort_map_fst]
    by_cases hmem : cohortKeyOf sd.2 ∈ m.map Prod.fst
    · simpa [hmem] using h
    · rw [if_neg hmem]
      refine List.Nodup.append h (List.nodup_singleton _) ?_
      intro x hx hxp
      rw [List.mem_singleton] at hxp
      exact hmem (hxp ▸ hx)

theorem buildCohorts_nodup_fst (commits : List (String × PyDateTime)) :
    ((buildCohorts commits).map Prod.fst).Nodup :=
  foldl_addCohort_nodup commits [] (by simp)

/-- C9: the survival analyzer emits at most 8 curves, their cohort keys
are strictly ascending in Python string order, the emitted keys are a
subsequence of the last 8 keys of the ascending-sorted cohort key list,
and an empty history produces no curves. -/
theorem survival_cohort_selection (env : GitEnv) (cs : List SurvivalCurve)
    (h : getSurvivalCurves env = .ok cs) :
    cs.length ≤ 8 ∧
    (cs.map (fun c => c.cohort)).Pairwise (fun a b => strLe a b ∧ a ≠ b) ∧
    (∀ out commits, runGit env.logShaDate = .ok out → parseCommits out = .ok commits →
      List.Sublist (cs.map (fun c => c.cohort))
        (takeLast 8 (List.insertionSort strLe ((buildCohorts commits).map Prod.fst)))) ∧
    (∀ out, runGit env.logShaDate = .ok out → parseCommits out = .ok [] → cs = []) := by
  rcases getSurvivalCurves_shape env cs h with ⟨out, hrg, hbr⟩
  rcases hbr with ⟨hpc, rfl⟩ | ⟨commits, headDT, hpc, hne, hmax, hfold⟩ |
    ⟨commits, hpc, hne, hsk, rfl⟩
  · refine ⟨by simp, by simp, ?_, fun _ _ _ => rfl⟩
    intro out2 commits2 hrg2 hpc2
    simp
  · have hsub0 := curvesFold_cohort_sublist _ _ _ _ _ _ hfold
    simp only [List.map_nil, List.nil_append] at hsub0
    have hsortall : (List.insertionSort strLe ((buildCohorts commits).map Prod.fst)).Pairwise
        strLe := List.sorted_insertionSort strLe _
    have hndall : (List.insertionSort strLe ((buildCohorts commits).map Prod.fst)).Nodup :=
      ((List.perm_insertionSort strLe _).symm).nodup (buildCohorts_nodup_fst commits)
    have hdropsub : List.Sublist
        (takeLast 8 (List.insertionSort strLe ((buildCohorts commits).map Prod.fst)))
        (List.insertionSort strLe ((buildCohorts commits).map Prod.fst)) := by
      unfold takeLast
      exact List.drop_sublist _ _
    have hsortsel := List.Pairwise.sublist hdropsub hsortall
    have hndsel := List.Nodup.sublist hdropsub hndall
    have hlen : (takeLast 8
        (List.insertionSort strLe ((buildCohorts commits).map Prod.fst))).length ≤ 8 := by
      unfold takeLast
      rw [List.length_drop]
      omega
    refine ⟨?_, ?_, ?_, ?_⟩
    · have hl2 := le_trans hsub0.length_le hlen
      simpa using hl2
    · exact List.Pairwise.sublist hsub0 (hsortsel.and hndsel)
    · intro out2 commits2 hrg2 hpc2
      rw [hrg] at hrg2
      injection hrg2 with hout
      subst hout
      rw [hpc] at hpc2
      injection hpc2 with hcm
      subst hcm
      exact hsub0
    · intro out2 hrg2 hpc2
      rw [hrg] at hrg2
      injection hrg2 with hout
      subst hout
      rw [hpc] at hpc2
      injection hpc2 with hcm
      exact absurd hcm hne
  · refine ⟨by simp, by simp, ?_, fun _ _ _ => rfl⟩
    intro out2 commits2 hrg2 hpc2
    simp

/-! ### Workspace lifecycle (C1) and the orchestrator frame (C10) -/

/-- C1: after every analyze_repo call the temporary clone directory no
longer exists, whether the call returns a result or raises; and the
directory survives clone_bare only when the clone succeeded, a failed
clone removing the partial directory before the error propagates.  The
removal is modelled by the ignore_errors rmtree, which is idempotent on an
already-gone path. -/
theorem workspace_cleanup (env : AnalysisEnv) :
    (analyzeRepo env).2 = false ∧
    ((cloneBare env).1 = .ok () ∨ (cloneBare env).2 = false) := by
  cases hc : env.cloneResult <;> simp [analyzeRepo, cloneBare, hc]

/-- C10: the orchestrator merge modifies only the churn field: whenever
analyze_repo returns a result, its hotspots and survival curves are
exactly the analyzer outputs, and its file tree is the snapshot output
with unchanged paths and loc values. -/
theorem merge_frame_effect (env : AnalysisEnv) (r : AnalyzeResult)
    (h : (analyzeRepo env).1 = .ok r) :
    getHotspots env.git = .ok r.hotspots ∧
    getSurvivalCurves env.git = .ok r.survival_curves ∧
    ∃ ft ch, getFileTree env.git = .ok ft ∧ getChurn env.git = .ok ch ∧
      r.file_tree = mergeChurn ft ch ∧
      r.file_tree.map (fun e => e.path) = ft.map (fun e => e.path) ∧
      r.file_tree.map (fun e => e.loc) = ft.map (fun e => e.loc) := by
  unfold analyzeRepo cloneBare at h
  cases hc : env.cloneResult with
  | exitFail => rw [hc] at h; cases h
  | timedOut => rw [hc] at h; cases h
  | ok cloneOut =>
    rw [hc] at h
    dsimp only at h
    cases hh : getHotspots env.git with
    | error e => rw [hh] at h; simp at h
    | ok hs =>
      cases hf : getFileTree env.git with
      | error e => rw [hh, hf] at h; simp at h
      | ok ft =>
        cases hch : getChurn env.git with
        | error e => rw [hh, hf, hch] at h; simp at h
        | ok ch =>
          cases hsv : getSurvivalCurves env.git with
          | error e => rw [hh, hf, hch, hsv] at h; simp at h
          | ok sv =>
            rw [hh, hf, hch, hsv] at h
            have h2 : Except.ok (AnalyzeResult.mk hs (mergeChurn ft ch) sv) =
                Except.ok r := h
            injection h2 with h2
            subst h2
            refine ⟨rfl, rfl, ft, ch, rfl, rfl, ?_, ?_⟩ <;>
              simp [mergeChurn, List.map_map, Function.comp]

/-! ### Scope of external tool failures (C7) -/

theorem runOffsets_allRevFail (env : GitEnv) (shas files : List String) (total : ℤ)
    (cohortEnd headEpoch : ℤ) (hrev : ∀ t, env.revList t = .exitFail) :
    ∀ ws : List ℕ, runOffsets env shas files total cohortEnd headEpoch ws = .ok []
  | [] => rfl
  | w :: ws => by
    simp only [runOffsets]
    by_cases hh : headEpoch < cohortEnd + 604800 * (w : ℤ)
    · rw [if_pos hh]
    · rw [if_neg hh, hrev]
      exact runOffsets_allRevFail env shas files total cohortEnd headEpoch hrev ws

/-- C7 counterexample: in this run the quarter-bounded numstat invocation
(a history-tool invocation other than blame) exits non-zero, yet
get_survival_curves returns normally with the cohort skipped rather than
propagating a fatal failure. -/
theorem toolfailure_not_fatal_cex :
    envCohortFail.cohortNumstat "2023-12-31" "2024-04-01" = .exitFail ∧
    getSurvivalCurves envCohortFail = .ok [] :=
  ⟨rfl, rfl⟩

/-- C7 as amended: a non-zero exit of the initial full-history invocation
of each analyzer is fatal (the analyzer returns the RuntimeError and the
orchestrator call yields no result), but inside survival analysis the
recovery is broader than blame alone: a failing quarter-bounded numstat
skips that cohort and a failing rev-list search skips every offset it is
consulted for, both without aborting the call. -/
theorem toolfailure_scope :
    (∀ env : GitEnv, env.logNameOnly = .exitFail → getHotspots env = .error .runtimeError) ∧
    (∀ env : GitEnv, env.hashObject = .exitFail → getFileTree env = .error .runtimeError) ∧
    (∀ env : GitEnv, env.logNumstat = .exitFail → getChurn env = .error .runtimeError) ∧
    (∀ env : GitEnv, env.logShaDate = .exitFail →
      getSurvivalCurves env = .error .runtimeError) ∧
    (∀ (env : AnalysisEnv) (e : PyErr), getSurvivalCurves env.git = .error e →
      ∀ r, (analyzeRepo env).1 ≠ .ok r) ∧
    (∀ (env : GitEnv) cohorts headEpoch key aS bS cE,
      quarterDates key = .ok (aS, bS, cE) → env.cohortNumstat aS bS = .exitFail →
      cohortCurve env cohorts headEpoch key = .ok none) ∧
    (∀ (env : GitEnv) (shas files : List String) (total cohortEnd headEpoch : ℤ),
      (∀ t, env.revList t = .exitFail) →
      runOffsets env shas files total cohortEnd headEpoch offsetList = .ok []) := by
  refine ⟨?_, ?_, ?_, ?_, ?_, ?_, ?_⟩
  · intro env he
    unfold getHotspots
    rw [he]
    rfl
  · intro env he
    unfold getFileTree
    rw [he]
    rfl
  · intro env he
    unfold getChurn
    rw [he]
    rfl
  · intro env he
    unfold getSurvivalCurves
    rw [he]
    rfl
  · intro env e hsv r hr
    unfold analyzeRepo cloneBare at hr
    cases hc : env.cloneResult with
    | exitFail => rw [hc] at hr; cases hr
    | timedOut => rw [hc] at hr; cases hr
    | ok cloneOut =>
      rw [hc] at hr
      dsimp only at hr
      cases hh : getHotspots env.git <;> rw [hh] at hr <;>
        cases hf : getFileTree env.git <;> rw [hf] at hr <;>
          cases hch : getChurn env.git <;> rw [hch] at hr <;>
            rw [hsv] at hr <;> simp at hr
  · intro env cohorts headEpoch key aS bS cE hqd hns
    unfold cohortCurve
    rw [hqd]
    dsimp only
    rw [hns]
  · intro env shas files total cohortEnd headEpoch hrev
    exact runOffsets_allRevFail env shas files total cohortEnd headEpoch hrev offsetList

/-! ### Parser tolerance and its limits (C8) -/

/-- C8 counterexample: on the three-field line x TAB y TAB z the churn
parser raises ValueError from int("x") instead of skipping the line, so
the analyzers' parsers are not total on arbitrary input text. -/
theorem parser_raises_cex : churnOfLog (String.mk ['x', '\t', 'y', '\t', 'z']) =
    .error .valueError := rfl

theorem numstatField_tol (a : String) (h : numFieldTol a) : ∃ w, numstatField a = .ok w := by
  unfold numstatField
  by_cases hd : a = "-"
  · exact ⟨0, by rw [if_pos hd]⟩
  · rw [if_neg hd]
    rcases h with hd2 | hsome
    · exact absurd hd2 hd
    · obtain ⟨v, hv⟩ := Option.isSome_iff_exists.mp hsome
      rw [hv]
      exact ⟨v, rfl⟩

theorem fileTreeLines_tol :
    ∀ (lines : List String) (acc : List FileTreeEntry),
      (∀ l ∈ lines, ftLineTol l) → ∃ r, fileTreeLines lines acc = .ok r
  | [], acc, _ => ⟨acc, rfl⟩
  | line :: rest, acc, h => by
    have hline := h line (List.mem_cons_self _ _)
    have hrest : ∀ l ∈ rest, ftLineTol l := fun l hl => h l (List.mem_cons_of_mem _ hl)
    simp only [fileTreeLines]
    by_cases hb : pyStrip line = ""
    · rw [if_pos hb]
      exact fileTreeLines_tol rest acc hrest
    · rw [if_neg hb]
      rcases hline with hb2 | htol
      · exact absurd hb2 hb
      · rcases hsp : splitTabs (pyStrip line) with _ | ⟨a, _ | ⟨b, _ | ⟨p, t⟩⟩⟩
        · exact fileTreeLines_tol rest acc hrest
        · exact fileTreeLines_tol rest acc hrest
        · exact fileTreeLines_tol rest acc hrest
        · rw [hsp] at htol
          obtain ⟨w, hw⟩ := numstatField_tol a htol
          dsimp only
          rw [hw]
          simp only [Bind.bind, Except.bind]
          exact fileTreeLines_tol rest (acc ++ [{ path := p, loc := w, churn := 0 }]) hrest

theorem churnLines_tol :
    ∀ (lines : List String) (acc : List ChurnEntry),
      (∀ l ∈ lines, churnLineTol l) → ∃ r, churnLines lines acc = .ok r
  | [], acc, _ => ⟨acc, rfl⟩
  | line :: rest, acc, h => by
    have hline := h line (List.mem_cons_self _ _)
    have hrest : ∀ l ∈ rest, churnLineTol l := fun l hl => h l (List.mem_cons_of_mem _ hl)
    simp only [churnLines]
    by_cases hb : pyStrip line = ""
    · rw [if_pos hb]
      exact churnLines_tol rest acc hrest
    · rw [if_neg hb]
      rcases hline with hb2 | htol
      · exact absurd hb2 hb
      · rcases hsp : splitTabs (pyStrip line) with _ | ⟨a, _ | ⟨d, _ | ⟨p, t⟩⟩⟩
        · exact churnLines_tol rest acc hrest
        · exact churnLines_tol rest acc hrest
        · exact churnLines_tol rest acc hrest
        · rw [hsp] at htol
          obtain ⟨wa, hwa⟩ := numstatField_tol a htol.1
          obtain ⟨wd, hwd⟩ := numstatField_tol d htol.2
          dsimp only
          rw [hwa, hwd]
          simp only [Bind.bind, Except.bind]
          exact churnLines_tol rest (bumpChurn acc p wa wd) hrest

theorem commitLines_tol :
    ∀ (lines : List String) (acc : List (String × PyDateTime)),
      (∀ l ∈ lines, commitLineTol l) → ∃ r, commitLines lines acc = .ok r
  | [], acc, _ => ⟨acc, rfl⟩
  | line :: rest, acc, h => by
    have hline := h line (List.mem_cons_self _ _)
    have hrest : ∀ l ∈ rest, commitLineTol l := fun l hl => h l (List.mem_cons_of_mem _ hl)
    simp only [commitLines]
    by_cases hb : pyStrip line = ""
    · rw [if_pos hb]
      exact commitLines_tol rest acc hrest
    · rw [if_neg hb]
      rcases hline with hb2 | ⟨sha, dstr, hsp, hiso⟩
      · exact absurd hb2 hb
      · rw [hsp]
        dsimp only
        obtain ⟨dt, hdt⟩ := Option.isSome_iff_exists.mp hiso
        rw [hdt]
        exact commitLines_tol rest (acc ++ [(String.mk sha, dt)]) hrest

theorem statLines_tol :
    ∀ (lines : List String) (acc : ℤ × List String),
      (∀ l ∈ lines, ftLineTol l) → ∃ r, statLines lines acc = .ok r
  | [], acc, _ => ⟨acc, rfl⟩
  | line :: rest, acc, h => by
    have hline := h line (List.mem_cons_self _ _)
    have hrest : ∀ l ∈ rest, ftLineTol l := fun l hl => h l (List.mem_cons_of_mem _ hl)
    simp only [statLines]
    by_cases hb : pyStrip line = ""
    · rw [if_pos hb]
      exact statLines_tol rest acc hrest
    · rw [if_neg hb]
      rcases hline with hb2 | htol
      · exact absurd hb2 hb
      · rcases hsp : splitTabs (pyStrip line) with _ | ⟨a, _ | ⟨b, _ | ⟨p, t⟩⟩⟩
        · exact statLines_tol rest acc hrest
        · exact statLines_tol rest acc hrest
        · exact statLines_tol rest acc hrest
        · rw [hsp] at htol
          dsimp only
          by_cases hdash : a = "-"
          · rw [if_pos hdash]
            exact statLines_tol rest acc hrest
          · rw [if_neg hdash]
            rcases htol with hd2 | hsome
            · exact absurd hd2 hdash
            · obtain ⟨v, hv⟩ := Option.isSome_iff_exists.mp hsome
              rw [hv]
              exact statLines_tol rest
                (acc.1 + v, if p ∈ acc.2 then acc.2 else acc.2 ++ [p]) hrest

/-- C8 as amended: the parsers are best-effort only up to field shape:
they skip blank lines and lines with fewer than three tab-separated
fields, and return a result whenever every line is blank or well-shaped
(numeric fields an integer literal or the "-" placeholder; every nonblank
history-walk line a first space followed by a parsable timestamp).  A
violating line raises ValueError, which propagates to the caller, as the
counterexample shows. -/
theorem parser_tolerance :
    (∀ out, (∀ l ∈ splitLines out, ftLineTol l) → ∃ r, fileTreeOfDiff out = .ok r) ∧
    (∀ out, (∀ l ∈ splitLines out, churnLineTol l) → ∃ r, churnOfLog out = .ok r) ∧
    (∀ out, (∀ l ∈ splitLines out, commitLineTol l) → ∃ r, parseCommits out = .ok r) ∧
    (∀ out, (∀ l ∈ splitLines out, ftLineTol l) → ∃ r, cohortStats out = .ok r) := by
  refine ⟨?_, ?_, ?_, ?_⟩
  · intro out h
    exact fileTreeLines_tol (splitLines out) [] h
  · intro out h
    obtain ⟨r, hr⟩ := churnLines_tol (splitLines out) [] h
    exact ⟨List.insertionSort churnTotGe r, by unfold churnOfLog; rw [hr]; rfl⟩
  · intro out h
    exact commitLines_tol (splitLines out) [] h
  · intro out h
    exact statLines_tol (splitLines out) (0, []) h

/-! ### Witnesses at the concrete runs -/

/-- Witness for C4 at the zero-total concrete run. -/
theorem survival_curve_first_sample_witness :
    (curveZero.data ≠ [] ∧ curveZero.data.head? = some initialSample) ∧
    curveZero.data = [initialSample] := by
  have h := survival_curve_first_sample envZeroTotal [curveZero] rfl curveZero
    (List.mem_singleton.mpr rfl)
  exact ⟨h.1, h.2 "2023-12-31" "2024-04-01" 1711843200 "" [] rfl rfl rfl⟩

/-- Witness for C5 at the sampled concrete run. -/
theorem survival_sample_bounds_witness :
    0 ≤ sample45.surviving_lines ∧ sample45.surviving_lines ≤ 1 ∧
    (0 < sample45.weeks_elapsed →
      ∃ shas rout,
        envSamples.revList (1711843200 + 604800 * (sample45.weeks_elapsed : ℤ)) = .ok rout ∧
        sample45.surviving_lines =
          round4 (min (Rat.divInt
            ((countSurviving envSamples (pyStrip rout) ["f.py"] shas : ℕ) : ℤ) 5) 1)) :=
  survival_sample_bounds envSamples [curveQ1, curveQ2] rfl curveQ1
    (List.mem_cons_self _ _) "2023-12-31" "2024-04-01" 1711843200 "5\t2\tf.py" 5 ["f.py"]
    rfl rfl rfl (by decide) sample45 (by decide)

/-- Witness for C6 at the sampled concrete run. -/
theorem survival_offset_iteration_witness :
    List.Sublist ([sample45, sample85].map (fun s => s.weeks_elapsed)) offsetList ∧
    ([sample45, sample85].map (fun s => s.weeks_elapsed)).Pairwise (fun a b => a < b) ∧
    1711843200 + 604800 * (sample45.weeks_elapsed : ℤ) ≤ 1718834400 := by
  have h := survival_offset_iteration envSamples [shaA] ["f.py"] 5 1711843200 1718834400
    [sample45, sample85] rfl
  exact ⟨h.2.2.1, h.2.2.2, h.1 sample45 (by decide)⟩

/-- Witness for the amended C7 at the concrete runs. -/
theorem toolfailure_scope_witness :
    getHotspots { envZeroTotal with logNameOnly := .exitFail } = .error .runtimeError ∧
    cohortCurve envCohortFail [] 0 "2024-Q1" = .ok none ∧
    runOffsets { envZeroTotal with revList := fun _ => .exitFail } [] [] 1 0 999999999999
      offsetList = .ok [] := by
  refine ⟨?_, ?_, ?_⟩
  · exact toolfailure_scope.1 _ rfl
  · exact toolfailure_scope.2.2.2.2.2.1 envCohortFail [] 0 "2024-Q1" "2023-12-31"
      "2024-04-01" 1711843200 rfl rfl
  · exact toolfailure_scope.2.2.2.2.2.2 _ [] [] 1 0 999999999999 (fun t => rfl)

/-- Witness for the amended C8 on a well-shaped churn line. -/
theorem parser_tolerance_witness :
    ∃ r, churnOfLog (String.mk ['3', '\t', '1', '\t', 'f']) = .ok r := by
  apply parser_tolerance.2.1
  intro l hl
  have hsl : splitLines (String.mk ['3', '\t', '1', '\t', 'f']) =
      [String.mk ['3', '\t', '1', '\t', 'f']] := rfl
  rw [hsl] at hl
  rw [List.mem_singleton] at hl
  subst hl
  exact Or.inr ⟨Or.inr rfl, Or.inr rfl⟩

/-- Witness for C9 at the sampled concrete run. -/
theorem survival_cohort_selection_witness :
    ([curveQ1, curveQ2] : List SurvivalCurve).length ≤ 8 ∧
    (([curveQ1, curveQ2] : List SurvivalCurve).map (fun c => c.cohort)).Pairwise
      (fun a b => strLe a b ∧ a ≠ b) ∧
    List.Sublist (([curveQ1, curveQ2] : List SurvivalCurve).map (fun c => c.cohort))
      (takeLast 8 (List.insertionSort strLe ((buildCohorts commitsSamples).map Prod.fst))) := by
  have h := survival_cohort_selection envSamples [curveQ1, curveQ2] rfl
  exact ⟨h.1, h.2.1, h.2.2.1 (shaA ++ " 2024-01-15T10:00:00+00:00\n" ++ shaB ++
    " 2024-06-20T00:00:00+02:00") commitsSamples rfl rfl⟩

/-- Witness for C10 at the successful concrete orchestrator run. -/
theorem merge_frame_effect_witness :
    getHotspots envAnalysis.git = .ok resAnalysis.hotspots ∧
    getSurvivalCurves envAnalysis.git = .ok resAnalysis.survival_curves ∧
    ∃ ft ch, getFileTree envAnalysis.git = .ok ft ∧ getChurn envAnalysis.git = .ok ch ∧
      resAnalysis.file_tree = mergeChurn ft ch ∧
      resAnalysis.file_tree.map (fun e => e.path) = ft.map (fun e => e.path) ∧
      resAnalysis.file_tree.map (fun e => e.loc) = ft.map (fun e => e.loc) :=
  merge_frame_effect envAnalysis resAnalysis rfl

end Gitpulse
